import Mathlib

/-!
Shallow embedding of `litellm/proxy/_types.py`: the access-control and
spend-governance data model of the LiteLLM proxy.  Pydantic models become
Lean structures, root validators (pre=True hooks on the raw value dict)
become explicit functions from raw inputs to `Except PyErr` results, and
Python dicts become association lists.  Python `float` fields carry no
arithmetic in the verified claims and are modelled as `Rat`; `datetime`
fields are modelled as opaque ISO strings.
-/

set_option maxRecDepth 10000

/-- A single quote character, used to build Python error messages verbatim. -/
def pyq : String := String.singleton (Char.ofNat 39)

/-- Errors surfaced by record construction.  In the Python source every one of
these is a `ValueError` raised inside a pydantic `root_validator` (pydantic
wraps it in a `ValidationError`); `valueError` carries the exact message.
`invalidArguments` models the `ValueError` raised by `LiteLLM_JWTAuth.__init__`
(Python formats the offending set of keys into the message; the constructor
carries the offending keys in source order since Python set order is
unspecified). -/
inductive PyErr where
  | valueError (msg : String)
  | invalidArguments (invalid_keys : List String)
deriving DecidableEq, Repr

/-! ## JSON values

Python's `json` module (external standard library, used by the
`set_model_info` validators via `json.loads`) operates on JSON texts.  JSON
values are modelled with integer numbers only: floating-point JSON numbers
are outside this embedding.  Objects are ordered key/value lists, matching
Python's insertion-ordered dicts. -/

inductive JValue where
  | null
  | bool (b : Bool)
  | int (n : Int)
  | str (s : String)
  | arr (elems : List JValue)
  | obj (entries : List (String × JValue))
deriving Repr

/-- A raw (pre-validation) field value as seen by a `pre=True` root validator:
either still a serialized string (`isinstance(value, str)` holds) or an
already structured value. -/
inductive RawValue where
  | rstr (s : String)
  | rjson (v : JValue)
deriving Repr

/-- The raw value dict handed to a `pre=True` root validator. -/
def RawRecord := List (String × RawValue)

/-- `values.get(field)`: first binding wins; an absent key reads as `None`. -/
def rawGet (values : RawRecord) (f : String) : Option RawValue :=
  (values.find? (fun p => p.1 = f)).map (fun p => p.2)

/-- `values[field] = x`: later reads of `field` see `x`. -/
def rawSet (values : RawRecord) (f : String) (x : RawValue) : RawRecord :=
  (f, x) :: values

/-! ## Cross-field validators (`_types.py` root validators) -/

/-- Message of the End-User mutual-exclusivity `ValueError`. -/
def endUserBothSetMsg : String :=
  "Set either " ++ pyq ++ "max_budget" ++ pyq ++ " or " ++ pyq ++ "budget_id" ++ pyq ++ ", not both."

/-- Message of the id-or-email `ValueError` shared by `Member`,
`UpdateUserRequest` and `TeamMemberDeleteRequest`. -/
def idOrEmailMsg : String := "Either user id or user email must be provided"

/-- `NewEndUserRequest.check_user_info` (lines 498-503): rejects a request
that sets both `max_budget` and `budget_id`. -/
def NewEndUserRequest.check_user_info (max_budget : Option Rat)
    (budget_id : Option String) : Except PyErr Unit :=
  if max_budget.isSome && budget_id.isSome then
    .error (.valueError endUserBothSetMsg)
  else
    .ok ()

/-- `NewEndUserRequest` (lines 485-496).  `allowed_model_region` is the
`Literal["eu"]` field, modelled as an optional string. -/
structure NewEndUserRequest where
  user_id : String
  «alias» : Option String := none
  blocked : Bool := false
  max_budget : Option Rat := none
  budget_id : Option String := none
  allowed_model_region : Option String := none
  default_model : Option String := none
deriving Repr

/-- Constructing a `NewEndUserRequest`: the `pre=True` validator runs on the
raw values, then the typed record is built with its declared defaults. -/
def mkNewEndUserRequest (user_id : String) («alias» : Option String)
    (blocked : Bool) (max_budget : Option Rat) (budget_id : Option String)
    (allowed_model_region : Option String) (default_model : Option String) :
    Except PyErr NewEndUserRequest :=
  match NewEndUserRequest.check_user_info max_budget budget_id with
  | .error e => .error e
  | .ok _ =>
    .ok { user_id, «alias», blocked, max_budget, budget_id,
          allowed_model_region, default_model }

/-- `Member.check_user_info` (lines 511-515). -/
def Member.check_user_info (user_id user_email : Option String) :
    Except PyErr Unit :=
  if user_id = none ∧ user_email = none then
    .error (.valueError idOrEmailMsg)
  else
    .ok ()

/-- `Member` (lines 506-509); `role` is `Literal["admin", "user"]`. -/
structure Member where
  role : String
  user_id : Option String := none
  user_email : Option String := none
deriving Repr

/-- Constructing a `Member` record. -/
def mkMember (role : String) (user_id user_email : Option String) :
    Except PyErr Member :=
  match Member.check_user_info user_id user_email with
  | .error e => .error e
  | .ok _ => .ok { role, user_id, user_email }

/-- `UpdateUserRequest.check_user_info` (lines 478-482): identical rule. -/
def UpdateUserRequest.check_user_info (user_id user_email : Option String) :
    Except PyErr Unit :=
  if user_id = none ∧ user_email = none then
    .error (.valueError idOrEmailMsg)
  else
    .ok ()

/-- `TeamMemberDeleteRequest.check_user_info` (lines 556-560): identical rule. -/
def TeamMemberDeleteRequest.check_user_info (user_id user_email : Option String) :
    Except PyErr Unit :=
  if user_id = none ∧ user_email = none then
    .error (.valueError idOrEmailMsg)
  else
    .ok ()

/-! ## Persisted identity records and their declared defaults

Field declaration order and defaults follow `_types.py`; pydantic gives an
`Optional[...]` field with no explicit default the default `None`. -/

/-- `LiteLLM_VerificationToken` (lines 849-881): the persisted Key record. -/
structure LiteLLM_VerificationToken where
  token : Option String := none
  key_name : Option String := none
  key_alias : Option String := none
  spend : Rat := 0
  max_budget : Option Rat := none
  expires : Option String := none
  models : List String := []
  aliases : List (String × JValue) := []
  config : List (String × JValue) := []
  user_id : Option String := none
  team_id : Option String := none
  max_parallel_requests : Option Int := none
  metadata : List (String × JValue) := []
  tpm_limit : Option Int := none
  rpm_limit : Option Int := none
  budget_duration : Option String := none
  budget_reset_at : Option String := none
  allowed_cache_controls : Option (List String) := some []
  permissions : List (String × JValue) := []
  model_spend : List (String × JValue) := []
  model_max_budget : List (String × JValue) := []
  soft_budget_cooldown : Bool := false
  litellm_budget_table : Option (List (String × JValue)) := none
  org_id : Option String := none
  user_id_rate_limits : Option (List (String × JValue)) := none
  team_id_rate_limits : Option (List (String × JValue)) := none

/-- `LiteLLM_VerificationTokenView` (lines 884-897): token joined with
selected team columns. -/
structure LiteLLM_VerificationTokenView extends LiteLLM_VerificationToken where
  team_spend : Option Rat := none
  team_alias : Option String := none
  team_tpm_limit : Option Int := none
  team_rpm_limit : Option Int := none
  team_max_budget : Option Rat := none
  team_models : List String := []
  team_blocked : Bool := false
  soft_budget : Option Rat := none
  team_model_aliases : Option (List (String × JValue)) := none

/-- `UserAPIKeyAuth` (lines 900-909): the auth result row.
`user_role` is `Literal["proxy_admin", "app_owner", "app_user"]`. -/
structure UserAPIKeyAuth extends LiteLLM_VerificationTokenView where
  api_key : Option String := none
  user_role : Option String := none
  allowed_model_region : Option String := none

/-- `LiteLLM_UserTable` (lines 927-944): the persisted internal-User record. -/
structure LiteLLM_UserTable where
  user_id : String
  max_budget : Option Rat := none
  spend : Rat := 0
  model_max_budget : Option (List (String × JValue)) := some []
  model_spend : Option (List (String × JValue)) := some []
  user_email : Option String := none
  models : List String := []
  tpm_limit : Option Int := none
  rpm_limit : Option Int := none

/-- `LiteLLM_EndUserTable` (lines 950-966): the persisted End-User record. -/
structure LiteLLM_EndUserTable where
  user_id : String
  blocked : Bool
  «alias» : Option String := none
  spend : Rat := 0
  allowed_model_region : Option String := none
  default_model : Option String := none
  litellm_budget_table : Option (List (String × JValue)) := none

/-- `LiteLLM_TeamTable` (lines 583-591) together with its base `TeamBase`
(lines 518-530): the persisted Team record. -/
structure LiteLLM_TeamTable where
  team_alias : Option String := none
  team_id : Option String := none
  organization_id : Option String := none
  admins : List String := []
  members : List String := []
  members_with_roles : List Member := []
  metadata : Option (List (String × JValue)) := none
  tpm_limit : Option Int := none
  rpm_limit : Option Int := none
  max_budget : Option Rat := none
  models : List String := []
  blocked : Bool := false
  spend : Option Rat := none
  max_parallel_requests : Option Int := none
  budget_duration : Option String := none
  budget_reset_at : Option String := none
  model_id : Option Int := none

/-! ## JWT-auth profile (closed schema) and route tables -/

/-- The annotated field names of `LiteLLM_JWTAuth` (lines 190-219), i.e.
`self.__annotations__.keys()` as read by its `__init__`. -/
def jwtAuthAllowedKeys : List String :=
  ["admin_jwt_scope", "admin_allowed_routes", "team_id_jwt_field",
   "team_allowed_routes", "team_id_default", "org_id_jwt_field",
   "user_id_jwt_field", "user_id_upsert", "end_user_id_jwt_field",
   "public_key_ttl"]

/-- `LiteLLM_JWTAuth.__init__` (lines 221-232): the closed-schema check run
before pydantic construction.  `kwargs` is the list of keyword-argument
names; any name outside the annotated field set raises a `ValueError`. -/
def LiteLLM_JWTAuth.init_check (kwargs : List String) : Except PyErr Unit :=
  let invalid_keys := kwargs.filter (fun k => !(jwtAuthAllowedKeys.contains k))
  if invalid_keys.isEmpty then .ok ()
  else .error (.invalidArguments invalid_keys)

/-- The declared (non-LiteLLM-param) fields of `ProxyChatCompletionRequest`
(lines 269-299), whose `Config.extra = "allow"` (lines 301-302). -/
def proxyChatCompletionFields : List String :=
  ["model", "messages", "temperature", "top_p", "n", "stream", "stop",
   "max_tokens", "presence_penalty", "frequency_penalty", "logit_bias",
   "user", "response_format", "seed", "tools", "tool_choice", "functions",
   "function_call", "caching", "api_base", "api_version", "api_key",
   "num_retries", "context_window_fallback_dict", "fallbacks", "metadata",
   "deployment_id", "request_timeout"]

/-- Keyword handling of the `ProxyChatCompletionRequest` DTO: because its
pydantic config sets `extra = "allow"`, construction never rejects an unknown
keyword; unknown keys are retained as passthrough extras.  Returns the list
of passthrough keys. -/
def ProxyChatCompletionRequest.accept_keys (kwargs : List String) :
    Except PyErr (List String) :=
  .ok (kwargs.filter (fun k => !(proxyChatCompletionFields.contains k)))

/-- `LiteLLMRoutes.openai_routes` (lines 55-80). -/
def LiteLLMRoutes.openai_routes : List String :=
  ["/openai/deployments/{model}/chat/completions",
   "/chat/completions",
   "/v1/chat/completions",
   "/openai/deployments/{model}/completions",
   "/completions",
   "/v1/completions",
   "/openai/deployments/{model}/embeddings",
   "/embeddings",
   "/v1/embeddings",
   "/images/generations",
   "/v1/images/generations",
   "/audio/transcriptions",
   "/v1/audio/transcriptions",
   "/moderations",
   "/v1/moderations",
   "/models",
   "/v1/models"]

/-- `LiteLLMRoutes.info_routes` (lines 82-90). -/
def LiteLLMRoutes.info_routes : List String :=
  ["/key/info", "/team/info", "/team/list", "/user/info", "/model/info",
   "/v2/model/info", "/v2/key/info"]

/-- `LiteLLMRoutes.master_key_only_routes` (lines 93-95). -/
def LiteLLMRoutes.master_key_only_routes : List String :=
  ["/global/spend/reset"]

/-- `LiteLLMRoutes.sso_only_routes` (lines 97-103). -/
def LiteLLMRoutes.sso_only_routes : List String :=
  ["/key/generate", "/key/update", "/key/delete", "/global/spend/logs",
   "/global/predict/spend/logs"]

/-- `LiteLLMRoutes.management_routes` (lines 105-128). -/
def LiteLLMRoutes.management_routes : List String :=
  ["/key/generate", "/key/update", "/key/delete", "/key/info",
   "/user/new", "/user/update", "/user/delete", "/user/info",
   "/team/new", "/team/update", "/team/delete", "/team/list", "/team/info",
   "/team/block", "/team/unblock",
   "/model/new", "/model/update", "/model/delete", "/model/info"]

/-- `LiteLLMRoutes.spend_tracking_routes` (lines 130-137). -/
def LiteLLMRoutes.spend_tracking_routes : List String :=
  ["/spend/keys", "/spend/users", "/spend/tags", "/spend/calculate",
   "/spend/logs"]

/-- `LiteLLMRoutes.global_spend_tracking_routes` (lines 139-148). -/
def LiteLLMRoutes.global_spend_tracking_routes : List String :=
  ["/global/spend/logs", "/global/spend", "/global/spend/keys",
   "/global/spend/teams", "/global/spend/end_users", "/global/spend/models",
   "/global/predict/spend/logs"]

/-- `LiteLLMRoutes.public_routes` (lines 150-158). -/
def LiteLLMRoutes.public_routes : List String :=
  ["/routes", "/", "/health/liveliness", "/health/readiness", "/test",
   "/config/yaml", "/metrics"]

/-- Default of `LiteLLM_JWTAuth.admin_allowed_routes` (lines 199-204). -/
def jwtAdminAllowedRoutesDefault : List String :=
  ["management_routes", "spend_tracking_routes",
   "global_spend_tracking_routes", "info_routes"]

/-- Default of `LiteLLM_JWTAuth.team_allowed_routes` (line 208). -/
def jwtTeamAllowedRoutesDefault : List String :=
  ["openai_routes", "info_routes"]

/-- Look a route-group name up in the fixed `LiteLLMRoutes` catalog. -/
def routeGroup : String → List String
  | "openai_routes" => LiteLLMRoutes.openai_routes
  | "info_routes" => LiteLLMRoutes.info_routes
  | "master_key_only_routes" => LiteLLMRoutes.master_key_only_routes
  | "sso_only_routes" => LiteLLMRoutes.sso_only_routes
  | "management_routes" => LiteLLMRoutes.management_routes
  | "spend_tracking_routes" => LiteLLMRoutes.spend_tracking_routes
  | "global_spend_tracking_routes" => LiteLLMRoutes.global_spend_tracking_routes
  | "public_routes" => LiteLLMRoutes.public_routes
  | _ => []

/-- Split a path into segments at every slash (structural helper, so that
concrete route checks evaluate inside the kernel). -/
def splitSeg : List Char → List (List Char)
  | [] => [[]]
  | c :: cs =>
    if c = '/' then [] :: splitSeg cs
    else
      match splitSeg cs with
      | s :: rest => (c :: s) :: rest
      | [] => [[c]]

/-- A template segment written between braces (such as the model placeholder
in the deployment routes) matches any single path segment. -/
def isPlaceholderSeg (seg : List Char) : Bool :=
  seg.head? = some (Char.ofNat 123) && seg.getLast? = some (Char.ofNat 125)

/-- Segment lists match pointwise: equal length, and every template segment
either equals the path segment or is a placeholder. -/
def segsMatch : List (List Char) → List (List Char) → Bool
  | [], [] => true
  | t :: ts, p :: ps => (isPlaceholderSeg t || t = p) && segsMatch ts ps
  | _, _ => false

/-- A path matches a route template when their slash-separated segments
match pointwise. -/
def pathMatchesTemplate (template path : String) : Bool :=
  segsMatch (splitSeg template.data) (splitSeg path.data)

/-- A path falls in a route group when it matches one of its templates. -/
def pathInGroup (path : String) (group : List String) : Bool :=
  group.any (fun t => pathMatchesTemplate t path)

/-- The post-verification claim set of a caller, per spec section 4.4. -/
structure JWTPrincipal where
  is_master_key : Bool := false
  has_admin_scope : Bool := false
  team_id : Option String := none
  from_sso : Bool := false

/-- Outcome of route authorization: `Denied` is a normal control-flow result,
not an error. -/
inductive AuthResult where
  | allowed
  | denied (reason : String)
deriving DecidableEq, Repr

/-- Modelled from the spec: `authorize_route(principal, requested_path)`
(spec section 4.4).  The resolver itself lives outside `_types.py` (in the
proxy's auth-check module, not part of the given sources); the route-group
catalog and the per-role default allow-lists above are taken from the source.
Order of checks follows the spec: public routes first, then the
master-key-only gate, then the SSO-origin gate, then the role-based
route-group check (`proxy_admin` if the admin scope is present, else
team-scoped if a team-id claim is present, else a plain caller, which the
spec gives the implicit team defaults). -/
def authorize_route (p : JWTPrincipal) (path : String) : AuthResult :=
  if pathInGroup path LiteLLMRoutes.public_routes then .allowed
  else if pathInGroup path LiteLLMRoutes.master_key_only_routes then
    (if p.is_master_key then .allowed else .denied "master_key_only")
  else if pathInGroup path LiteLLMRoutes.sso_only_routes && !p.from_sso then
    .denied "sso_only"
  else
    let groups :=
      if p.has_admin_scope then jwtAdminAllowedRoutesDefault
      else jwtTeamAllowedRoutesDefault
    if groups.any (fun g => pathInGroup path (routeGroup g)) then .allowed
    else .denied "route_not_permitted"

/-! ## Rate-limit scoping -/

/-- Effective per-request limits; `none` means unbounded. -/
structure EffectiveLimits where
  rpm : Option Int
  tpm : Option Int
  max_parallel : Option Int
deriving DecidableEq, Repr

/-- First non-null value wins. -/
def firstSome (a b : Option Int) : Option Int :=
  match a with
  | some v => some v
  | none => b

/-- Modelled from the spec: `resolve_limits(key, user, team)` (spec section
4.3).  The resolution function itself lives outside `_types.py` (in the
proxy's parallel-request limiter, not part of the given sources); the record
fields it reads are the source structures above.  Each limit field is
resolved independently: the Key's value if set, else the User's, else the
Team's, else unbounded.  The User record carries no parallel-request field,
so that column falls through from Key directly to Team. -/
def resolve_limits (key : LiteLLM_VerificationToken) (user : LiteLLM_UserTable)
    (team : LiteLLM_TeamTable) : EffectiveLimits :=
  { rpm := firstSome key.rpm_limit (firstSome user.rpm_limit team.rpm_limit)
    tpm := firstSome key.tpm_limit (firstSome user.tpm_limit team.tpm_limit)
    max_parallel := firstSome key.max_parallel_requests team.max_parallel_requests }

/-! ## Python `json` module (external library used by the validators)

Modelled from the spec: the `set_model_info` validators call the standard
library's `json.loads`, and persisted records were produced with
`json.dumps`; neither function's source is part of this repository.  The
serializer follows `json.dumps` with its default separators and shorthand
escapes; the parser is a standard JSON recursive-descent reader.  Two
documented deviations: numbers are integers only (floating-point literals
are rejected rather than parsed), and surrogate-pair `\uXXXX` escapes are
not recombined. -/

/-- Decimal digit character. -/
def digitChar (n : Nat) : Char := Char.ofNat (48 + n)

/-- Lowercase hexadecimal digit character. -/
def hexDigitChar (n : Nat) : Char :=
  if n < 10 then Char.ofNat (48 + n) else Char.ofNat (87 + n)

/-- Decimal digits of `n`, most significant first (fueled so that it
computes by kernel reduction). -/
def natToCharsAux : Nat → Nat → List Char
  | 0, _ => []
  | fuel+1, n => if n < 10 then [digitChar n] else natToCharsAux fuel (n / 10) ++ [digitChar (n % 10)]

/-- Decimal digits of a natural number. -/
def natToChars (n : Nat) : List Char := natToCharsAux (n + 1) n

/-- Decimal rendering of an integer. -/
def intToChars (i : Int) : List Char :=
  if i < 0 then '-' :: natToChars i.natAbs else natToChars i.natAbs

/-- String-character escaping of `json.dumps`: quote, backslash and the five
shorthand controls get two-character escapes, remaining control characters
get `\u00XX`, and every other character is emitted verbatim. -/
def escapeChar (c : Char) : List Char :=
  if c = '"' then ['\\', '"']
  else if c = '\\' then ['\\', '\\']
  else if c = '\n' then ['\\', 'n']
  else if c = '\t' then ['\\', 't']
  else if c = '\r' then ['\\', 'r']
  else if c = Char.ofNat 8 then ['\\', 'b']
  else if c = Char.ofNat 12 then ['\\', 'f']
  else if c.toNat < 32 then
    '\\' :: 'u' :: '0' :: '0' ::
      hexDigitChar (c.toNat / 16) :: hexDigitChar (c.toNat % 16) :: []
  else [c]

/-- Escape every character of a string body. -/
def escapeChars : List Char → List Char
  | [] => []
  | c :: cs => escapeChar c ++ escapeChars cs

/-- A serialized JSON string: quote, escaped body, quote. -/
def strChars (s : String) : List Char := '"' :: (escapeChars s.data ++ ['"'])

mutual

/-- Characters of the `json.dumps` rendering of a value. -/
def serChars : JValue → List Char
  | .null => ("null" : String).data
  | .bool true => ("true" : String).data
  | .bool false => ("false" : String).data
  | .int n => intToChars n
  | .str s => strChars s
  | .arr [] => ['[', ']']
  | .arr (x :: xs) => '[' :: (serChars x ++ serElemsTail xs ++ [']'])
  | .obj [] => [Char.ofNat 123, Char.ofNat 125]
  | .obj (kv :: kvs) => Char.ofNat 123 :: (serMember kv ++ serMembersTail kvs ++ [Char.ofNat 125])

/-- One `"key": value` member. -/
def serMember : String × JValue → List Char
  | (k, v) => strChars k ++ ':' :: ' ' :: serChars v

/-- Remaining array elements, each preceded by the `", "` separator. -/
def serElemsTail : List JValue → List Char
  | [] => []
  | x :: xs => ',' :: ' ' :: (serChars x ++ serElemsTail xs)

/-- Remaining object members, each preceded by the `", "` separator. -/
def serMembersTail : List (String × JValue) → List Char
  | [] => []
  | kv :: kvs => ',' :: ' ' :: (serMember kv ++ serMembersTail kvs)

end

/-- `json.dumps`. -/
def json_dumps (v : JValue) : String := String.mk (serChars v)

/-- JSON insignificant whitespace. -/
def isWsChar (c : Char) : Bool := c = ' ' || c = '\t' || c = '\n' || c = '\r'

/-- Decimal digit test. -/
def isDigitChar (c : Char) : Bool := 48 ≤ c.toNat && c.toNat ≤ 57

/-- Drop leading whitespace. -/
def skipWs : List Char → List Char
  | [] => []
  | c :: cs => if isWsChar c then skipWs cs else c :: cs

/-- Value of one hexadecimal digit. -/
def hexVal (c : Char) : Option Nat :=
  if 48 ≤ c.toNat && c.toNat ≤ 57 then some (c.toNat - 48)
  else if 97 ≤ c.toNat && c.toNat ≤ 102 then some (c.toNat - 87)
  else if 65 ≤ c.toNat && c.toNat ≤ 70 then some (c.toNat - 55)
  else none

/-- Two-character escape decodings. -/
def escDecode (e : Char) : Option Char :=
  if e = '"' then some '"'
  else if e = '\\' then some '\\'
  else if e = '/' then some '/'
  else if e = 'n' then some '\n'
  else if e = 't' then some '\t'
  else if e = 'r' then some '\r'
  else if e = 'b' then some (Char.ofNat 8)
  else if e = 'f' then some (Char.ofNat 12)
  else none

mutual

/-- Read a JSON string body up to (and consuming) the closing quote;
returns the decoded characters and the remaining input.  Unescaped control
characters are rejected, as in the Python parser's strict mode. -/
def parseStringBody : List Char → Option (List Char × List Char)
  | [] => none
  | c :: cs =>
    if c = '"' then some ([], cs)
    else if c = '\\' then parseEscape cs
    else if c.toNat < 32 then none
    else (parseStringBody cs).map (fun r => (c :: r.1, r.2))

/-- Read what follows a backslash inside a string body. -/
def parseEscape : List Char → Option (List Char × List Char)
  | [] => none
  | e :: cs2 =>
    if e = 'u' then parseHex4 cs2
    else
      match escDecode e with
      | some d => (parseStringBody cs2).map (fun r => (d :: r.1, r.2))
      | none => none

/-- Read the four hex digits of a `\uXXXX` escape. -/
def parseHex4 : List Char → Option (List Char × List Char)
  | h1 :: h2 :: h3 :: h4 :: cs3 =>
    match hexVal h1, hexVal h2, hexVal h3, hexVal h4 with
    | some a, some b, some c1, some d =>
      (parseStringBody cs3).map
        (fun r => (Char.ofNat (4096 * a + 256 * b + 16 * c1 + d) :: r.1, r.2))
    | _, _, _, _ => none
  | _ => none

end

/-- Accumulate decimal digits. -/
def digitsToNat (ds : List Char) : Nat :=
  ds.foldl (fun a c => 10 * a + (c.toNat - 48)) 0

/-- Read an unsigned integer literal; a following `.`, `e` or `E` would make
it a float literal, which this embedding rejects. -/
def parseNumCore (cs : List Char) : Option (Nat × List Char) :=
  let ds := cs.takeWhile isDigitChar
  let rest := cs.dropWhile isDigitChar
  if ds.isEmpty then none
  else
    match rest with
    | c :: _ => if c = '.' || c = 'e' || c = 'E' then none else some (digitsToNat ds, rest)
    | [] => some (digitsToNat ds, [])

/-- Consume an expected literal suffix. -/
def stripLit : List Char → List Char → Option (List Char)
  | [], cs => some cs
  | p :: ps, c :: cs => if c = p then stripLit ps cs else none
  | _ :: _, [] => none

mutual

/-- Read one JSON value (after skipping leading whitespace).  The fuel
argument decreases on every nested call; `json_loads` supplies enough fuel
for any input of the given length. -/
def parseValue : Nat → List Char → Option (JValue × List Char)
  | 0, _ => none
  | fuel+1, cs =>
    match skipWs cs with
    | [] => none
    | c :: cs1 =>
      if c = 'n' then (stripLit ['u', 'l', 'l'] cs1).map (fun r => (.null, r))
      else if c = 't' then (stripLit ['r', 'u', 'e'] cs1).map (fun r => (.bool true, r))
      else if c = 'f' then (stripLit ['a', 'l', 's', 'e'] cs1).map (fun r => (.bool false, r))
      else if c = '"' then (parseStringBody cs1).map (fun r => (.str (String.mk r.1), r.2))
      else if c = '[' then
        match skipWs cs1 with
        | ']' :: cs2 => some (.arr [], cs2)
        | cs2 => (parseElems fuel cs2).map (fun r => (.arr r.1, r.2))
      else if c = Char.ofNat 123 then
        match skipWs cs1 with
        | [] => none
        | c2 :: cs2 =>
          if c2 = Char.ofNat 125 then some (.obj [], cs2)
          else (parseMembers fuel (c2 :: cs2)).map (fun r => (.obj r.1, r.2))
      else if c = '-' then
        (parseNumCore cs1).map (fun r => (.int (-(r.1 : Int)), r.2))
      else if isDigitChar c then
        (parseNumCore (c :: cs1)).map (fun r => (.int (r.1 : Int), r.2))
      else none

/-- Read the elements of a non-empty array, consuming the closing bracket. -/
def parseElems : Nat → List Char → Option (List JValue × List Char)
  | 0, _ => none
  | fuel+1, cs =>
    match parseValue fuel cs with
    | none => none
    | some (v, r) =>
      match skipWs r with
      | ',' :: r2 => (parseElems fuel r2).map (fun t => (v :: t.1, t.2))
      | ']' :: r2 => some ([v], r2)
      | _ => none

/-- Read the members of a non-empty object, consuming the closing brace. -/
def parseMembers : Nat → List Char → Option (List (String × JValue) × List Char)
  | 0, _ => none
  | fuel+1, cs =>
    match skipWs cs with
    | '"' :: cs1 =>
      match parseStringBody cs1 with
      | none => none
      | some (k, r1) =>
        match skipWs r1 with
        | ':' :: r2 =>
          match parseValue fuel r2 with
          | none => none
          | some (v, r3) =>
            match skipWs r3 with
            | [] => none
            | c :: r4 =>
              if c = ',' then (parseMembers fuel r4).map (fun t => ((String.mk k, v) :: t.1, t.2))
              else if c = Char.ofNat 125 then some ([(String.mk k, v)], r4)
              else none
        | _ => none
    | _ => none

end

/-- `json.loads`: parse a complete JSON document; `none` models a
`json.JSONDecodeError`. -/
def json_loads (s : String) : Option JValue :=
  match parseValue (s.data.length + 1) s.data with
  | some (v, rest) => if (skipWs rest).isEmpty then some v else none
  | none => none

/-! ## String-to-structure coercion (`set_model_info` validators) -/

/-- Message of the `ValueError` raised when a persisted text field fails to
decode; the spec's taxonomy calls this failure `MalformedFieldError`. -/
def malformedFieldMsg (f : String) : String :=
  "Field " ++ f ++ " should be a valid dictionary"

/-- The shared decode loop of the `set_model_info` validators: for each
listed field whose raw value is a string, replace it by its `json.loads`
decoding, or raise naming the field. -/
def normalizeFields : List String → RawRecord → Except PyErr RawRecord
  | [], values => .ok values
  | f :: fs, values =>
    match rawGet values f with
    | some (.rstr s) =>
      match json_loads s with
      | some v => normalizeFields fs (rawSet values f (.rjson v))
      | none => .error (.valueError (malformedFieldMsg f))
    | _ => normalizeFields fs values

/-- The `dict_fields` list of `GenerateKeyResponse.set_model_info`
(lines 413-419); note it does not include `model_aliases`. -/
def keyDictFields : List String :=
  ["metadata", "aliases", "config", "permissions", "model_max_budget"]

/-- The `dict_fields` list of `LiteLLM_TeamTable.set_model_info`
(lines 595-602). -/
def teamDictFields : List String :=
  ["metadata", "aliases", "config", "permissions", "model_max_budget",
   "model_aliases"]

/-- `GenerateKeyResponse.set_model_info` (lines 409-428): mirror `token`
into `key` when present, then decode the five text-serialized dict fields. -/
def GenerateKeyResponse.set_model_info (values : RawRecord) :
    Except PyErr RawRecord :=
  let values1 :=
    match rawGet values "token" with
    | some t => rawSet values "key" t
    | none => values
  normalizeFields keyDictFields values1

/-- `LiteLLM_TeamTable.set_model_info` (lines 593-611): decode the six
text-serialized dict fields. -/
def LiteLLM_TeamTable.set_model_info (values : RawRecord) :
    Except PyErr RawRecord :=
  normalizeFields teamDictFields values

/-! ## SHA-256 (`hashlib.sha256`, external standard library)

Modelled from the spec: `hash_token` calls `hashlib.sha256` on the UTF-8
encoding of the plaintext and returns the lowercase hex digest; `hashlib` is
outside this repository, so FIPS 180-4 SHA-256 is implemented here. -/

/-- Two to the thirty-two, the word modulus. -/
def M32 : Nat := 4294967296

/-- Right rotation of a 32-bit word. -/
def rotr32 (n x : Nat) : Nat := ((x >>> n) ||| (x <<< (32 - n))) % M32

/-- The choose function. -/
def shaCh (x y z : Nat) : Nat := (x &&& y) ^^^ ((x ^^^ (M32 - 1)) &&& z)

/-- The majority function. -/
def shaMaj (x y z : Nat) : Nat := (y &&& z) ^^^ (x &&& z) ^^^ (x &&& y)

/-- Big sigma zero. -/
def bigS0 (x : Nat) : Nat := rotr32 2 x ^^^ rotr32 13 x ^^^ rotr32 22 x

/-- Big sigma one. -/
def bigS1 (x : Nat) : Nat := rotr32 6 x ^^^ rotr32 11 x ^^^ rotr32 25 x

/-- Small sigma zero. -/
def smallS0 (x : Nat) : Nat := rotr32 7 x ^^^ rotr32 18 x ^^^ (x >>> 3)

/-- Small sigma one. -/
def smallS1 (x : Nat) : Nat := rotr32 17 x ^^^ rotr32 19 x ^^^ (x >>> 10)

/-- The sixty-four round constants. -/
def sha256K : List Nat :=
  [1116352408, 1899447441, 3049323471, 3921009573, 961987163, 1508970993, 2453635748, 2870763221,
   3624381080, 310598401, 607225278, 1426881987, 1925078388, 2162078206, 2614888103, 3248222580,
   3835390401, 4022224774, 264347078, 604807628, 770255983, 1249150122, 1555081692, 1996064986,
   2554220882, 2821834349, 2952996808, 3210313671, 3336571891, 3584528711, 113926993, 338241895,
   666307205, 773529912, 1294757372, 1396182291, 1695183700, 1986661051, 2177026350, 2456956037,
   2730485921, 2820302411, 3259730800, 3345764771, 3516065817, 3600352804, 4094571909, 275423344,
   430227734, 506948616, 659060556, 883997877, 958139571, 1322822218, 1537002063, 1747873779,
   1955562222, 2024104815, 2227730452, 2361852424, 2428436474, 2756734187, 3204031479, 3329325298]

/-- The initial hash value. -/
def sha256H0 : List Nat :=
  [1779033703, 3144134277, 1013904242, 2773480762, 1359893119, 2600822924, 528734635, 1541459225]

/-- Working variables of the compression loop. -/
structure SHA256State where
  a : Nat
  b : Nat
  c : Nat
  d : Nat
  e : Nat
  f : Nat
  g : Nat
  h : Nat

/-- Big-endian 32-bit words from bytes. -/
def bytesToWords : List Nat → List Nat
  | b0 :: b1 :: b2 :: b3 :: rest =>
    (b3 ||| (b2 <<< 8) ||| (b1 <<< 16) ||| (b0 <<< 24)) :: bytesToWords rest
  | _ => []

/-- Extend sixteen message words to the sixty-four-word schedule. -/
def extendW (w0 : List Nat) : List Nat :=
  (List.range 48).foldl
    (fun w i =>
      w ++ [(smallS1 (w.getD (i + 14) 0) + w.getD (i + 9) 0 +
             smallS0 (w.getD (i + 1) 0) + w.getD i 0) % M32])
    w0

/-- One compression round. -/
def shaRound (k w : Nat) (s : SHA256State) : SHA256State :=
  let t1 := (s.h + bigS1 s.e + shaCh s.e s.f s.g + k + w) % M32
  let t2 := (bigS0 s.a + shaMaj s.a s.b s.c) % M32
  { a := (t1 + t2) % M32, b := s.a, c := s.b, d := s.c,
    e := (s.d + t1) % M32, f := s.e, g := s.f, h := s.g }

/-- Compress one 64-byte block into the running hash. -/
def sha256Compress (h : List Nat) (block : List Nat) : List Nat :=
  let w := extendW (bytesToWords block)
  let s0 : SHA256State :=
    ⟨h.getD 0 0, h.getD 1 0, h.getD 2 0, h.getD 3 0,
     h.getD 4 0, h.getD 5 0, h.getD 6 0, h.getD 7 0⟩
  let sF := (sha256K.zip w).foldl (fun s kw => shaRound kw.1 kw.2 s) s0
  [(h.getD 0 0 + sF.a) % M32, (h.getD 1 0 + sF.b) % M32,
   (h.getD 2 0 + sF.c) % M32, (h.getD 3 0 + sF.d) % M32,
   (h.getD 4 0 + sF.e) % M32, (h.getD 5 0 + sF.f) % M32,
   (h.getD 6 0 + sF.g) % M32, (h.getD 7 0 + sF.h) % M32]

/-- Big-endian 64-bit length field. -/
def be8Bytes (n : Nat) : List Nat :=
  [(n >>> 56) % 256, (n >>> 48) % 256, (n >>> 40) % 256, (n >>> 32) % 256,
   (n >>> 24) % 256, (n >>> 16) % 256, (n >>> 8) % 256, n % 256]

/-- Append the 0x80 marker, zero padding and the message bit length. -/
def sha256pad (msg : List Nat) : List Nat :=
  let L := msg.length
  let z := (119 - (L % 64)) % 64
  msg ++ 128 :: (List.replicate z 0 ++ be8Bytes (8 * L))

/-- Split into 64-byte blocks (fueled so that it computes by reduction). -/
def chunks64 : Nat → List Nat → List (List Nat)
  | 0, _ => []
  | _, [] => []
  | fuel+1, l => l.take 64 :: chunks64 fuel (l.drop 64)

/-- SHA-256 of a byte sequence, as eight 32-bit words. -/
def sha256 (msg : List Nat) : List Nat :=
  let padded := sha256pad msg
  (chunks64 padded.length padded).foldl sha256Compress sha256H0

/-- Eight lowercase hex digits of one word. -/
def toHex8 (w : Nat) : List Char :=
  [hexDigitChar ((w >>> 28) % 16), hexDigitChar ((w >>> 24) % 16),
   hexDigitChar ((w >>> 20) % 16), hexDigitChar ((w >>> 16) % 16),
   hexDigitChar ((w >>> 12) % 16), hexDigitChar ((w >>> 8) % 16),
   hexDigitChar ((w >>> 4) % 16), hexDigitChar (w % 16)]

/-- Lowercase hex digest of a byte sequence. -/
def sha256hex (msg : List Nat) : String :=
  String.mk ((sha256 msg).foldr (fun w acc => toHex8 w ++ acc) [])

/-- UTF-8 bytes of one character (`str.encode()`). -/
def utf8EncodeChar (c : Char) : List Nat :=
  let n := c.toNat
  if n < 128 then [n]
  else if n < 2048 then [192 ||| (n >>> 6), 128 ||| (n &&& 63)]
  else if n < 65536 then
    [224 ||| (n >>> 12), 128 ||| ((n >>> 6) &&& 63), 128 ||| (n &&& 63)]
  else
    [240 ||| (n >>> 18), 128 ||| ((n >>> 12) &&& 63),
     128 ||| ((n >>> 6) &&& 63), 128 ||| (n &&& 63)]

/-- UTF-8 bytes of a string. -/
def strUtf8 (s : String) : List Nat :=
  s.data.foldr (fun c acc => utf8EncodeChar c ++ acc) []

/-- `hash_token` (lines 10-16): SHA-256 hex digest of the UTF-8 encoded
plaintext. -/
def hash_token (token : String) : String := sha256hex (strUtf8 token)

/-- Leading-segment test on character lists. -/
def listIsPre : List Char → List Char → Bool
  | [], _ => true
  | _ :: _, [] => false
  | p :: ps, c :: cs => p = c && listIsPre ps cs

/-- Python's `str.startswith`. -/
def strStartsWith (s p : String) : Bool := listIsPre p.data s.data

/-- `UserAPIKeyAuth.check_api_key` (lines 911-919): when an `api_key` is
given, store its hash in `token`; additionally overwrite `api_key` itself
with the hash, but only when the plaintext starts with `sk-`. -/
def UserAPIKeyAuth.check_api_key (v : UserAPIKeyAuth) : UserAPIKeyAuth :=
  match v.api_key with
  | none => v
  | some k =>
    let v1 := { v with token := some (hash_token k) }
    if strStartsWith k "sk-" then { v1 with api_key := some (hash_token k) } else v1

/-! ## Fuel accounting and delimiter contexts for the JSON round trip -/

mutual

/-- Fuel sufficient for `parseValue` to read back a serialized value. -/
def jfuel : JValue → Nat
  | .null => 1
  | .bool _ => 1
  | .int _ => 1
  | .str _ => 1
  | .arr [] => 1
  | .arr (x :: xs) => 1 + jfuelElems (x :: xs)
  | .obj [] => 1
  | .obj (kv :: kvs) => 1 + jfuelMembers (kv :: kvs)

/-- Fuel sufficient for `parseElems` on a serialized element list. -/
def jfuelElems : List JValue → Nat
  | [] => 0
  | x :: xs => 1 + jfuel x + jfuelElems xs

/-- Fuel sufficient for `parseMembers` on a serialized member list. -/
def jfuelMembers : List (String × JValue) → Nat
  | [] => 0
  | kv :: kvs => 1 + jfuel kv.2 + jfuelMembers kvs

end

/-- The character contexts that can follow a serialized value: end of
input, a separating comma, or a closing bracket or brace. -/
def SerDelim (cs : List Char) : Prop :=
  cs = [] ∨ ∃ c cs2, cs = c :: cs2 ∧ (c = ',' ∨ c = ']' ∨ c = Char.ofNat 125)

/-! ## Theorems -/

/-- The rendering of the `null` keyword. -/
theorem serChars_null : serChars JValue.null = ['n', 'u', 'l', 'l'] := by
  rw [serChars]

/-- The rendering of the `true` keyword. -/
theorem serChars_true : serChars (JValue.bool true) = ['t', 'r', 'u', 'e'] := by
  rw [serChars]

/-- The rendering of the `false` keyword. -/
theorem serChars_false : serChars (JValue.bool false) = ['f', 'a', 'l', 's', 'e'] := by
  rw [serChars]

/-- C1: constructing an End-User record with the required `user_id` present
fails with the mutual-exclusivity `ValidationError` whenever both
`max_budget` and `budget_id` are set, and succeeds whenever exactly one of
the two is set. -/
theorem c1_endUser_budget_mutual_exclusivity
    (uid : String) (al : Option String) (b : Bool) (mb : Option Rat)
    (bid : Option String) (amr dm : Option String) :
    (mb.isSome = true → bid.isSome = true →
      mkNewEndUserRequest uid al b mb bid amr dm =
        .error (.valueError endUserBothSetMsg)) ∧
    ((mb.isSome = true ∧ bid = none) ∨ (mb = none ∧ bid.isSome = true) →
      ∃ r, mkNewEndUserRequest uid al b mb bid amr dm = .ok r) := by
  constructor
  · intro hmb hbid
    cases mb with
    | none => simp at hmb
    | some m =>
      cases bid with
      | none => simp at hbid
      | some bi => rfl
  · rintro (⟨hmb, rfl⟩ | ⟨rfl, hbid⟩)
    · cases mb with
      | none => simp at hmb
      | some m => exact ⟨_, rfl⟩
    · cases bid with
      | none => simp at hbid
      | some bi => exact ⟨_, rfl⟩

/-- C1 witness: both set fails, exactly one set succeeds, at concrete
inputs. -/
theorem c1_endUser_budget_mutual_exclusivity_witness :
    mkNewEndUserRequest "u" none false (some 10) (some "b1") none none =
      .error (.valueError endUserBothSetMsg) ∧
    ∃ r, mkNewEndUserRequest "u" none false (some 10) none none none = .ok r :=
  ⟨(c1_endUser_budget_mutual_exclusivity "u" none false (some 10) (some "b1")
      none none).1 rfl rfl,
   (c1_endUser_budget_mutual_exclusivity "u" none false (some 10) none
      none none).2 (Or.inl ⟨rfl, rfl⟩)⟩

/-- C10: constructing an End-User record with a `user_id` and with neither
`max_budget` nor `budget_id` set succeeds, and yields the record with the
declared defaults. -/
theorem c10_endUser_neither_budget_ok
    (uid : String) (al : Option String) (b : Bool) (amr dm : Option String) :
    mkNewEndUserRequest uid al b none none amr dm =
      .ok { user_id := uid, «alias» := al, blocked := b, max_budget := none,
            budget_id := none, allowed_model_region := amr,
            default_model := dm } := rfl

/-- C6: for team Member records, user-update requests and
team-member-delete requests alike, the shared id-or-email rule fires exactly
when both the user identifier and the user email are absent. -/
theorem c6_member_id_or_email (role : String) (uid em : Option String) :
    (Member.check_user_info uid em = .error (.valueError idOrEmailMsg) ↔
      uid = none ∧ em = none) ∧
    (UpdateUserRequest.check_user_info uid em =
        .error (.valueError idOrEmailMsg) ↔ uid = none ∧ em = none) ∧
    (TeamMemberDeleteRequest.check_user_info uid em =
        .error (.valueError idOrEmailMsg) ↔ uid = none ∧ em = none) ∧
    (mkMember role uid em = .error (.valueError idOrEmailMsg) ↔
      uid = none ∧ em = none) ∧
    (¬(uid = none ∧ em = none) →
      mkMember role uid em = .ok { role, user_id := uid, user_email := em }) := by
  refine ⟨?_, ?_, ?_, ?_, ?_⟩ <;>
    · cases uid <;> cases em <;>
        simp [Member.check_user_info, UpdateUserRequest.check_user_info,
          TeamMemberDeleteRequest.check_user_info, mkMember]

/-- C6 witness: the rule fires with both absent, and does not fire with an
email present. -/
theorem c6_member_id_or_email_witness :
    mkMember "admin" none none = .error (.valueError idOrEmailMsg) ∧
    mkMember "user" none (some "a@b.co") =
      .ok { role := "user", user_id := none, user_email := some "a@b.co" } :=
  ⟨((c6_member_id_or_email "admin" none none).2.2.2.1).mpr ⟨rfl, rfl⟩,
   (c6_member_id_or_email "user" none (some "a@b.co")).2.2.2.2
     (by simp)⟩

/-- C7: constructing a JWT-auth profile with any keyword outside its
declared field set fails (closed schema), while the chat-completion request
DTO accepts arbitrary additional passthrough keys without error. -/
theorem c7_jwt_closed_schema (ks : List String)
    (h : ∃ k ∈ ks, jwtAuthAllowedKeys.contains k = false) :
    (∃ l, LiteLLM_JWTAuth.init_check ks = .error (.invalidArguments l) ∧
      l ≠ []) ∧
    ∀ ks2 : List String, ∃ extras,
      ProxyChatCompletionRequest.accept_keys ks2 = .ok extras := by
  constructor
  · obtain ⟨k, hk, hbad⟩ := h
    have hmem : k ∈ ks.filter (fun k => !(jwtAuthAllowedKeys.contains k)) :=
      List.mem_filter.mpr ⟨hk, by rw [hbad]; rfl⟩
    have hne : ks.filter (fun k => !(jwtAuthAllowedKeys.contains k)) ≠ [] :=
      List.ne_nil_of_mem hmem
    have hie : ¬((ks.filter (fun k => !(jwtAuthAllowedKeys.contains k))).isEmpty = true) := by
      intro hemp
      exact hne (List.isEmpty_iff.mp hemp)
    refine ⟨_, ?_, hne⟩
    simp only [LiteLLM_JWTAuth.init_check]
    rw [if_neg hie]
  · intro ks2
    exact ⟨_, rfl⟩

/-- C7 witness: one unknown key is rejected at a concrete input. -/
theorem c7_jwt_closed_schema_witness :
    ∃ l, LiteLLM_JWTAuth.init_check ["admin_jwt_scope", "budget"] =
      .error (.invalidArguments l) ∧ l ≠ [] :=
  (c7_jwt_closed_schema ["admin_jwt_scope", "budget"]
    ⟨"budget", by decide, by decide⟩).1

/-- C2: a caller whose only claim is a team-id is denied `/key/generate`
(whether or not the credential came from the SSO flow) and allowed
`/v1/chat/completions`; the membership facts the claim cites hold of the
route catalog. -/
theorem c2_team_route_permissions (t : String) (sso : Bool) :
    (∃ reason,
      authorize_route { team_id := some t, from_sso := sso } "/key/generate" =
        .denied reason) ∧
    authorize_route { team_id := some t, from_sso := sso }
        "/v1/chat/completions" = .allowed ∧
    LiteLLMRoutes.sso_only_routes.contains "/key/generate" = true ∧
    LiteLLMRoutes.management_routes.contains "/key/generate" = true ∧
    LiteLLMRoutes.openai_routes.contains "/key/generate" = false ∧
    LiteLLMRoutes.info_routes.contains "/key/generate" = false ∧
    LiteLLMRoutes.openai_routes.contains "/v1/chat/completions" = true ∧
    jwtTeamAllowedRoutesDefault = ["openai_routes", "info_routes"] := by
  refine ⟨?_, ?_, by decide, by decide, by decide, by decide, by decide, rfl⟩
  · cases sso
    · exact ⟨"sso_only", rfl⟩
    · exact ⟨"route_not_permitted", rfl⟩
  · cases sso <;> rfl

/-- C3: effective rate limits are resolved per field, most specific
non-null value first, independently for `rpm`, `tpm` and `max_parallel`;
in particular a Key with a null `tpm_limit` inherits the Team's 1000, and
setting the Key's `tpm_limit` to 500 overrides it. -/
theorem c3_limits_field_precedence
    (key : LiteLLM_VerificationToken) (user : LiteLLM_UserTable)
    (team : LiteLLM_TeamTable) (v : Int) :
    (key.tpm_limit = some v → (resolve_limits key user team).tpm = some v) ∧
    (key.tpm_limit = none → user.tpm_limit = some v →
      (resolve_limits key user team).tpm = some v) ∧
    (key.tpm_limit = none → user.tpm_limit = none →
      (resolve_limits key user team).tpm = team.tpm_limit) ∧
    (key.rpm_limit = some v → (resolve_limits key user team).rpm = some v) ∧
    (key.rpm_limit = none → user.rpm_limit = some v →
      (resolve_limits key user team).rpm = some v) ∧
    (key.rpm_limit = none → user.rpm_limit = none →
      (resolve_limits key user team).rpm = team.rpm_limit) ∧
    (key.max_parallel_requests = some v →
      (resolve_limits key user team).max_parallel = some v) ∧
    (key.max_parallel_requests = none →
      (resolve_limits key user team).max_parallel =
        team.max_parallel_requests) ∧
    (resolve_limits { tpm_limit := none, rpm_limit := some 7 }
        { user_id := "u" } { tpm_limit := some 1000 }).tpm = some 1000 ∧
    (resolve_limits { tpm_limit := none, rpm_limit := some 7 }
        { user_id := "u" } { tpm_limit := some 1000 }).rpm = some 7 ∧
    (resolve_limits { tpm_limit := some 500, rpm_limit := some 7 }
        { user_id := "u" } { tpm_limit := some 1000 }).tpm = some 500 := by
  refine ⟨?_, ?_, ?_, ?_, ?_, ?_, ?_, ?_, rfl, rfl, rfl⟩ <;>
    · intro h1
      first
      | (intro h2; simp [resolve_limits, firstSome, h1, h2])
      | simp [resolve_limits, firstSome, h1]

/-- C3 witness: key-over-team precedence at a concrete input. -/
theorem c3_limits_field_precedence_witness :
    (resolve_limits { tpm_limit := some 500 } { user_id := "u" }
      { tpm_limit := some 1000 }).tpm = some 500 :=
  (c3_limits_field_precedence { tpm_limit := some 500 } { user_id := "u" }
    { tpm_limit := some 1000 } 500).1 rfl

/-- C4 counterexample: an `api_key` that does not start with `sk-` is kept
in plaintext in the `api_key` field of the constructed record, so the claim
that no field of the record holds the plaintext secret is false. -/
theorem c4_plaintext_persists_counterexample :
    (UserAPIKeyAuth.check_api_key { api_key := some "my-key" }).api_key =
      some "my-key" ∧
    strStartsWith "my-key" "sk-" = false := ⟨rfl, by decide⟩

/-- C4 amended: the `token` field always receives the SHA-256 hash of a
non-None `api_key`; the `api_key` field itself is overwritten with the hash
only when the plaintext starts with `sk-`, and otherwise retains the
plaintext. -/
theorem c4_token_always_hashed (v : UserAPIKeyAuth) (k : String)
    (h : v.api_key = some k) :
    (UserAPIKeyAuth.check_api_key v).token = some (hash_token k) ∧
    (strStartsWith k "sk-" = true →
      (UserAPIKeyAuth.check_api_key v).api_key = some (hash_token k)) ∧
    (strStartsWith k "sk-" = false →
      (UserAPIKeyAuth.check_api_key v).api_key = some k) := by
  cases hsk : strStartsWith k "sk-" <;>
    simp [UserAPIKeyAuth.check_api_key, h, hsk]

/-- C4 witness: a concrete `sk-` key is hashed into `token`. -/
theorem c4_token_always_hashed_witness :
    (UserAPIKeyAuth.check_api_key { api_key := some "sk-1" }).token =
      some (hash_token "sk-1") :=
  (c4_token_always_hashed { api_key := some "sk-1" } "sk-1" rfl).1

/-- C9 counterexample: a Team record constructed with no optional field
supplied carries `spend = None` (not 0.0) and `metadata = None` (not an
empty mapping), and a Key record's `litellm_budget_table` mapping field
defaults to `None`, so the claim does not hold of every list or mapping
field of every identity record. -/
theorem c9_team_defaults_counterexample :
    ({} : LiteLLM_TeamTable).spend = none ∧
    ({} : LiteLLM_TeamTable).metadata = none ∧
    ({} : LiteLLM_VerificationToken).litellm_budget_table = none :=
  ⟨rfl, rfl, rfl⟩

/-- C9 amended: Key, User and End-User records constructed without optional
fields supplied default `spend` to 0.0 and their non-Optional list and
mapping fields to empty containers; fields declared `Optional` default as
declared — in particular a Team record defaults `spend` and `metadata` to
`None`, and a Key record defaults `litellm_budget_table` and the hidden
rate-limit mirrors to `None`. -/
theorem c9_declared_defaults (uid uid2 : String) (b : Bool) :
    ({} : LiteLLM_VerificationToken).spend = 0 ∧
    ({} : LiteLLM_VerificationToken).models = [] ∧
    ({} : LiteLLM_VerificationToken).aliases = [] ∧
    ({} : LiteLLM_VerificationToken).config = [] ∧
    ({} : LiteLLM_VerificationToken).metadata = [] ∧
    ({} : LiteLLM_VerificationToken).permissions = [] ∧
    ({} : LiteLLM_VerificationToken).model_spend = [] ∧
    ({} : LiteLLM_VerificationToken).model_max_budget = [] ∧
    ({} : LiteLLM_VerificationToken).allowed_cache_controls = some [] ∧
    ({ user_id := uid } : LiteLLM_UserTable).spend = 0 ∧
    ({ user_id := uid } : LiteLLM_UserTable).models = [] ∧
    ({ user_id := uid } : LiteLLM_UserTable).model_max_budget = some [] ∧
    ({ user_id := uid } : LiteLLM_UserTable).model_spend = some [] ∧
    ({ user_id := uid2, blocked := b } : LiteLLM_EndUserTable).spend = 0 ∧
    ({} : LiteLLM_TeamTable).admins = [] ∧
    ({} : LiteLLM_TeamTable).members = [] ∧
    ({} : LiteLLM_TeamTable).members_with_roles = [] ∧
    ({} : LiteLLM_TeamTable).models = [] ∧
    ({} : LiteLLM_TeamTable).spend = none ∧
    ({} : LiteLLM_TeamTable).metadata = none := by
  exact ⟨rfl, rfl, rfl, rfl, rfl, rfl, rfl, rfl, rfl, rfl, rfl, rfl, rfl,
    rfl, rfl, rfl, rfl, rfl, rfl, rfl⟩

/-- Reading back the field just written. -/
theorem rawGet_set_self (values : RawRecord) (f : String) (x : RawValue) :
    rawGet (rawSet values f x) f = some x := by
  simp [rawGet, rawSet]

/-- Writing one field leaves every other field unchanged. -/
theorem rawGet_set_ne (values : RawRecord) (f g : String) (x : RawValue)
    (h : g ≠ f) : rawGet (rawSet values f x) g = rawGet values g := by
  have h2 : ¬(f = g) := fun e => h e.symm
  simp [rawGet, rawSet, List.find?_cons, h2]

/-- The decode loop never touches a field outside its list. -/
theorem normalizeFields_ok_preserves (fields : List String) :
    ∀ (values values2 : RawRecord) (f : String), f ∉ fields →
      normalizeFields fields values = .ok values2 →
      rawGet values2 f = rawGet values f := by
  induction fields with
  | nil =>
    intro values values2 f _ hok
    cases hok
    rfl
  | cons g fs ih =>
    intro values values2 f hf hok
    have hfg : f ≠ g := fun e => hf (e ▸ List.mem_cons_self g fs)
    have hffs : f ∉ fs := fun e => hf (List.mem_cons_of_mem g e)
    cases hg : rawGet values g with
    | none =>
      simp only [normalizeFields, hg] at hok
      exact ih values values2 f hffs hok
    | some rv =>
      cases rv with
      | rjson v =>
        simp only [normalizeFields, hg] at hok
        exact ih values values2 f hffs hok
      | rstr s =>
        cases hl : json_loads s with
        | none =>
          simp only [normalizeFields, hg, hl] at hok
          exact Except.noConfusion hok
        | some v =>
          simp only [normalizeFields, hg, hl] at hok
          have := ih _ values2 f hffs hok
          rwa [rawGet_set_ne values g f (.rjson v) hfg] at this

/-- When some listed field holds an undecodable string, the decode loop
fails, with the error naming a listed field that holds an undecodable
string. -/
theorem normalizeFields_error_of_bad (fields : List String) :
    ∀ (values : RawRecord) (f : String) (s : String), fields.Nodup →
      f ∈ fields → rawGet values f = some (.rstr s) → json_loads s = none →
      ∃ f2, f2 ∈ fields ∧
        (∃ s2, rawGet values f2 = some (.rstr s2) ∧ json_loads s2 = none) ∧
        normalizeFields fields values =
          .error (.valueError (malformedFieldMsg f2)) := by
  induction fields with
  | nil =>
    intro values f s _ hf
    cases hf
  | cons g fs ih =>
    intro values f s hnd hf hget hbad
    obtain ⟨hgfs, hndfs⟩ := List.nodup_cons.mp hnd
    cases hg : rawGet values g with
    | none =>
      have hfg : f ≠ g := fun e => by rw [e, hg] at hget; cases hget
      have hffs : f ∈ fs := (List.mem_cons.mp hf).resolve_left hfg
      obtain ⟨f2, hf2, hw, herr⟩ := ih values f s hndfs hffs hget hbad
      refine ⟨f2, List.mem_cons_of_mem g hf2, hw, ?_⟩
      simp only [normalizeFields, hg]
      exact herr
    | some rv =>
      cases rv with
      | rjson v =>
        have hfg : f ≠ g := fun e => by rw [e, hg] at hget; cases hget
        have hffs : f ∈ fs := (List.mem_cons.mp hf).resolve_left hfg
        obtain ⟨f2, hf2, hw, herr⟩ := ih values f s hndfs hffs hget hbad
        refine ⟨f2, List.mem_cons_of_mem g hf2, hw, ?_⟩
        simp only [normalizeFields, hg]
        exact herr
      | rstr s3 =>
        cases hl : json_loads s3 with
        | none =>
          refine ⟨g, List.mem_cons_self g fs, ⟨s3, hg, hl⟩, ?_⟩
          simp only [normalizeFields, hg, hl]
        | some v =>
          have hfg : f ≠ g := by
            intro e
            rw [e, hg] at hget
            cases hget
            rw [hl] at hbad
            cases hbad
          have hffs : f ∈ fs := (List.mem_cons.mp hf).resolve_left hfg
          have hget2 : rawGet (rawSet values g (.rjson v)) f = some (.rstr s) := by
            rwa [rawGet_set_ne values g f (.rjson v) hfg]
          obtain ⟨f2, hf2, ⟨s2, hs2, hbad2⟩, herr⟩ :=
            ih (rawSet values g (.rjson v)) f s hndfs hffs hget2 hbad
          have hf2g : f2 ≠ g := fun e => hgfs (e ▸ hf2)
          refine ⟨f2, List.mem_cons_of_mem g hf2,
            ⟨s2, by rwa [rawGet_set_ne values g f2 (.rjson v) hf2g] at hs2, hbad2⟩, ?_⟩
          simp only [normalizeFields, hg, hl]
          exact herr

/-- When the decode loop succeeds, every listed field that arrived as a
string has been replaced by its JSON decoding. -/
theorem normalizeFields_ok_decodes (fields : List String) :
    ∀ (values values2 : RawRecord), fields.Nodup →
      normalizeFields fields values = .ok values2 →
      ∀ f ∈ fields, ∀ s, rawGet values f = some (.rstr s) →
        ∃ v, json_loads s = some v ∧ rawGet values2 f = some (.rjson v) := by
  induction fields with
  | nil =>
    intro values values2 _ _ f hf
    cases hf
  | cons g fs ih =>
    intro values values2 hnd hok f hf s hget
    obtain ⟨hgfs, hndfs⟩ := List.nodup_cons.mp hnd
    cases hg : rawGet values g with
    | none =>
      simp only [normalizeFields, hg] at hok
      have hfg : f ≠ g := fun e => by rw [e, hg] at hget; cases hget
      exact ih values values2 hndfs hok f
        ((List.mem_cons.mp hf).resolve_left hfg) s hget
    | some rv =>
      cases rv with
      | rjson v =>
        simp only [normalizeFields, hg] at hok
        have hfg : f ≠ g := fun e => by rw [e, hg] at hget; cases hget
        exact ih values values2 hndfs hok f
          ((List.mem_cons.mp hf).resolve_left hfg) s hget
      | rstr s3 =>
        cases hl : json_loads s3 with
        | none =>
          simp only [normalizeFields, hg, hl] at hok
          exact Except.noConfusion hok
        | some v =>
          simp only [normalizeFields, hg, hl] at hok
          by_cases hfg : f = g
          · subst hfg
            rw [hg] at hget
            cases hget
            refine ⟨v, hl, ?_⟩
            have := normalizeFields_ok_preserves fs _ values2 f hgfs hok
            rwa [rawGet_set_self values f (.rjson v)] at this
          · have hget2 : rawGet (rawSet values g (.rjson v)) f = some (.rstr s) := by
              rwa [rawGet_set_ne values g f (.rjson v) hfg]
            exact ih _ values2 hndfs hok f
              ((List.mem_cons.mp hf).resolve_left hfg) s hget2

/-- C5 counterexample: a raw Key record in which `model_aliases` arrives as
an undecodable string is accepted unchanged — `GenerateKeyResponse`'s
normalization list omits `model_aliases` — so construction does not fail
with an error naming the field, contrary to the claim. -/
theorem c5_key_model_aliases_counterexample :
    json_loads "\x7bbad" = none ∧
    rawGet [("model_aliases", RawValue.rstr "\x7bbad")] "model_aliases" =
      some (.rstr "\x7bbad") ∧
    GenerateKeyResponse.set_model_info
        [("model_aliases", RawValue.rstr "\x7bbad")] =
      .ok [("model_aliases", RawValue.rstr "\x7bbad")] :=
  ⟨rfl, rfl, rfl⟩

/-- C5 amended: for raw Team records, each of the six historically
text-serialized fields that arrives as a string is JSON-decoded in place,
and an undecodable string makes construction fail with a `ValueError`
naming an offending field (the first such field in the fixed order); for
raw Key records the same holds for the five fields without
`model_aliases`. -/
theorem c5_text_field_decode (values : RawRecord) (f s : String) :
    (f ∈ teamDictFields → rawGet values f = some (.rstr s) →
      ((json_loads s = none →
         ∃ f2, f2 ∈ teamDictFields ∧
           (∃ s2, rawGet values f2 = some (.rstr s2) ∧ json_loads s2 = none) ∧
           LiteLLM_TeamTable.set_model_info values =
             .error (.valueError (malformedFieldMsg f2))) ∧
       (∀ values2, LiteLLM_TeamTable.set_model_info values = .ok values2 →
         ∃ v, json_loads s = some v ∧ rawGet values2 f = some (.rjson v)))) ∧
    (f ∈ keyDictFields → rawGet values f = some (.rstr s) →
      ((json_loads s = none →
         ∃ f2, f2 ∈ keyDictFields ∧
           (∃ s2, rawGet values f2 = some (.rstr s2) ∧ json_loads s2 = none) ∧
           GenerateKeyResponse.set_model_info values =
             .error (.valueError (malformedFieldMsg f2))) ∧
       (∀ values2, GenerateKeyResponse.set_model_info values = .ok values2 →
         ∃ v, json_loads s = some v ∧ rawGet values2 f = some (.rjson v)))) := by
  constructor
  · intro hf hget
    constructor
    · intro hbad
      exact normalizeFields_error_of_bad teamDictFields values f s (by decide)
        hf hget hbad
    · intro values2 hok
      exact normalizeFields_ok_decodes teamDictFields values values2 (by decide)
        hok f hf s hget
  · intro hf hget
    have hkeymem : ¬("key" ∈ keyDictFields) := by decide
    have hfkey : f ≠ "key" := fun e => hkeymem (e ▸ hf)
    cases hg : rawGet values "token" with
    | none =>
      have hsm : GenerateKeyResponse.set_model_info values =
          normalizeFields keyDictFields values := by
        simp only [GenerateKeyResponse.set_model_info, hg]
      constructor
      · intro hbad
        obtain ⟨f2, hf2, hw, herr⟩ := normalizeFields_error_of_bad keyDictFields
          values f s (by decide) hf hget hbad
        exact ⟨f2, hf2, hw, by rw [hsm]; exact herr⟩
      · intro values2 hok
        rw [hsm] at hok
        exact normalizeFields_ok_decodes keyDictFields values values2 (by decide)
          hok f hf s hget
    | some t =>
      have hsm : GenerateKeyResponse.set_model_info values =
          normalizeFields keyDictFields (rawSet values "key" t) := by
        simp only [GenerateKeyResponse.set_model_info, hg]
      have hget1 : rawGet (rawSet values "key" t) f = some (.rstr s) := by
        rwa [rawGet_set_ne values "key" f t hfkey]
      constructor
      · intro hbad
        obtain ⟨f2, hf2, ⟨s2, hs2, hb2⟩, herr⟩ := normalizeFields_error_of_bad
          keyDictFields (rawSet values "key" t) f s (by decide) hf hget1 hbad
        have hf2key : f2 ≠ "key" := fun e => hkeymem (e ▸ hf2)
        exact ⟨f2, hf2,
          ⟨s2, by rwa [rawGet_set_ne values "key" f2 t hf2key] at hs2, hb2⟩,
          by rw [hsm]; exact herr⟩
      · intro values2 hok
        rw [hsm] at hok
        exact normalizeFields_ok_decodes keyDictFields (rawSet values "key" t)
          values2 (by decide) hok f hf s hget1

/-- C5 witness: a Team record with an undecodable `metadata` string fails
naming a field, and one with a decodable `metadata` string gets the decoded
mapping. -/
theorem c5_text_field_decode_witness :
    (∃ f2, f2 ∈ teamDictFields ∧
      (∃ s2, rawGet [("metadata", RawValue.rstr "nope")] f2 =
          some (.rstr s2) ∧ json_loads s2 = none) ∧
      LiteLLM_TeamTable.set_model_info [("metadata", RawValue.rstr "nope")] =
        .error (.valueError (malformedFieldMsg f2))) ∧
    (∃ v, json_loads "\x7b\x22a\x22: 1\x7d" = some v ∧
      rawGet [("metadata", RawValue.rjson (JValue.obj [("a", JValue.int 1)])),
              ("metadata", RawValue.rstr "\x7b\x22a\x22: 1\x7d")] "metadata" =
        some (.rjson v)) :=
  ⟨((c5_text_field_decode [("metadata", RawValue.rstr "nope")]
      "metadata" "nope").1 (by decide) rfl).1 rfl,
   ((c5_text_field_decode
      [("metadata", RawValue.rstr "\x7b\x22a\x22: 1\x7d")]
      "metadata" "\x7b\x22a\x22: 1\x7d").1 (by decide) rfl).2
     [("metadata", RawValue.rjson (JValue.obj [("a", JValue.int 1)])),
      ("metadata", RawValue.rstr "\x7b\x22a\x22: 1\x7d")] rfl⟩

/-- Reading back the scalar value of a character built from a small code. -/
theorem char_toNat_ofNat (m : Nat) (h : m < 55296) : (Char.ofNat m).toNat = m := by
  have hv : m.isValidChar := Or.inl h
  rw [Char.toNat, Char.ofNat, dif_pos hv]
  rfl

/-- Whitespace skipping stops at a non-whitespace head. -/
theorem skipWs_not_ws (c : Char) (cs : List Char) (h : isWsChar c = false) :
    skipWs (c :: cs) = c :: cs := by
  simp [skipWs, h]

/-- Whitespace skipping passes a space. -/
theorem skipWs_sp (cs : List Char) : skipWs (' ' :: cs) = skipWs cs := rfl

/-- A literal consumes exactly itself. -/
theorem stripLit_self (p : List Char) : ∀ cs, stripLit p (p ++ cs) = some cs := by
  induction p with
  | nil => intro cs; rfl
  | cons c ps ih => intro cs; simp [stripLit, ih]

/-- Digits are not whitespace. -/
theorem digit_not_ws (c : Char) (h : isDigitChar c = true) : isWsChar c = false := by
  cases hw : isWsChar c with
  | false => rfl
  | true =>
    exfalso
    simp only [isWsChar, Bool.or_eq_true, decide_eq_true_eq] at hw
    rcases hw with ((rfl | rfl) | rfl) | rfl <;> exact absurd h (by decide)

/-- A digit character is none of the parser's structural characters. -/
theorem digit_facts (ch : Char) (h : isDigitChar ch = true) :
    ch ≠ 'n' ∧ ch ≠ 't' ∧ ch ≠ 'f' ∧ ch ≠ '"' ∧ ch ≠ '[' ∧
    ch ≠ Char.ofNat 123 ∧ ch ≠ '-' ∧ ch ≠ ']' ∧ ch ≠ Char.ofNat 125 ∧
    ch ≠ ',' := by
  repeat' apply And.intro
  all_goals
    rintro rfl
    exact absurd h (by decide)

/-- The digit characters of a natural number rendering. -/
theorem natToCharsAux_digits (fuel : Nat) :
    ∀ n, n < fuel → ∀ c ∈ natToCharsAux fuel n, isDigitChar c = true := by
  induction fuel with
  | zero => intro n h; omega
  | succ fuel ih =>
    intro n h c hc
    by_cases h10 : n < 10
    · simp only [natToCharsAux, if_pos h10, List.mem_singleton] at hc
      subst hc
      have he : (digitChar n).toNat = 48 + n := char_toNat_ofNat _ (by omega)
      simp only [isDigitChar, he, Bool.and_eq_true, decide_eq_true_eq]
      omega
    · simp only [natToCharsAux, if_neg h10, List.mem_append,
        List.mem_singleton] at hc
      rcases hc with hc | hc
      · have hdiv : n / 10 < n := Nat.div_lt_self (by omega) (by omega)
        exact ih (n / 10) (by omega) c hc
      · subst hc
        have hm : n % 10 < 10 := Nat.mod_lt n (by omega)
        have he : (digitChar (n % 10)).toNat = 48 + n % 10 :=
          char_toNat_ofNat _ (by omega)
        simp only [isDigitChar, he, Bool.and_eq_true, decide_eq_true_eq]
        omega

/-- A natural number rendering is never empty. -/
theorem natToCharsAux_ne_nil (fuel : Nat) :
    ∀ n, n < fuel → natToCharsAux fuel n ≠ [] := by
  induction fuel with
  | zero => intro n h; omega
  | succ fuel ih =>
    intro n h
    by_cases h10 : n < 10
    · simp [natToCharsAux, if_pos h10]
    · have hdiv : n / 10 < n := Nat.div_lt_self (by omega) (by omega)
      simp only [natToCharsAux, if_neg h10]
      intro he
      exact ih (n / 10) (by omega) (List.append_eq_nil.mp he).1

/-- Accumulating one more digit. -/
theorem digitsToNat_append_digit (ds : List Char) (c : Char) :
    digitsToNat (ds ++ [c]) = 10 * digitsToNat ds + (c.toNat - 48) := by
  simp [digitsToNat, List.foldl_append]

/-- Reading a rendering back gives the number. -/
theorem digitsToNat_natToCharsAux (fuel : Nat) :
    ∀ n, n < fuel → digitsToNat (natToCharsAux fuel n) = n := by
  induction fuel with
  | zero => intro n h; omega
  | succ fuel ih =>
    intro n h
    by_cases h10 : n < 10
    · simp only [natToCharsAux, if_pos h10]
      have he : (digitChar n).toNat = 48 + n := char_toNat_ofNat _ (by omega)
      simp only [digitsToNat, List.foldl_cons, List.foldl_nil, he]
      omega
    · have hdiv : n / 10 < n := Nat.div_lt_self (by omega) (by omega)
      simp only [natToCharsAux, if_neg h10]
      rw [digitsToNat_append_digit, ih (n / 10) (by omega)]
      have hm : n % 10 < 10 := Nat.mod_lt n (by omega)
      have he : (digitChar (n % 10)).toNat = 48 + n % 10 :=
        char_toNat_ofNat _ (by omega)
      rw [he]
      have := Nat.div_add_mod n 10
      omega

/-- `natToChars` facts packaged: nonempty, all digits, reads back. -/
theorem natToChars_spec (n : Nat) :
    natToChars n ≠ [] ∧ (∀ c ∈ natToChars n, isDigitChar c = true) ∧
    digitsToNat (natToChars n) = n :=
  ⟨natToCharsAux_ne_nil (n + 1) n (by omega),
   natToCharsAux_digits (n + 1) n (by omega),
   digitsToNat_natToCharsAux (n + 1) n (by omega)⟩

/-- `takeWhile` and `dropWhile` split an appended list at the boundary where
the predicate first fails. -/
theorem takeWhile_dropWhile_append (p : Char → Bool) (l1 l2 : List Char)
    (h1 : ∀ c ∈ l1, p c = true)
    (h2 : ∀ c, l2.head? = some c → p c = false) :
    (l1 ++ l2).takeWhile p = l1 ∧ (l1 ++ l2).dropWhile p = l2 := by
  induction l1 with
  | nil =>
    simp only [List.nil_append]
    cases l2 with
    | nil => exact ⟨rfl, rfl⟩
    | cons c cs =>
      have := h2 c rfl
      constructor
      · simp [List.takeWhile_cons, this]
      · simp [List.dropWhile_cons, this]
  | cons c cs ih =>
    have hc := h1 c (List.mem_cons_self c cs)
    obtain ⟨ht, hd⟩ := ih (fun x hx => h1 x (List.mem_cons_of_mem c hx))
    constructor
    · simp [List.takeWhile_cons, hc, ht]
    · simp [List.dropWhile_cons, hc, hd]

/-- A delimiter context never begins with a digit, a dot or an exponent
marker. -/
theorem serDelim_head (rest : List Char) (h : SerDelim rest) :
    ∀ c, rest.head? = some c →
      isDigitChar c = false ∧ c ≠ '.' ∧ c ≠ 'e' ∧ c ≠ 'E' := by
  intro c hc
  rcases h with rfl | ⟨c2, cs2, rfl, hd⟩
  · cases hc
  · simp only [List.head?_cons, Option.some.injEq] at hc
    subst hc
    rcases hd with rfl | rfl | rfl <;> exact ⟨by decide, by decide, by decide, by decide⟩

/-- Reading back a serialized unsigned integer. -/
theorem parseNumCore_ser (n : Nat) (rest : List Char) (hd : SerDelim rest) :
    parseNumCore (natToChars n ++ rest) = some (n, rest) := by
  obtain ⟨hne, hdig, hval⟩ := natToChars_spec n
  obtain ⟨ht, hdr⟩ := takeWhile_dropWhile_append isDigitChar (natToChars n) rest
    hdig (fun c hc => (serDelim_head rest hd c hc).1)
  simp only [parseNumCore, ht, hdr]
  rw [if_neg (by simpa [List.isEmpty_iff] using hne)]
  cases hrest : rest with
  | nil => simp [hval]
  | cons c cs =>
    obtain ⟨_, h1, h2, h3⟩ := serDelim_head rest hd c (by rw [hrest]; rfl)
    simp only [hval]
    rw [if_neg (by simp [h1, h2, h3])]

/-- Hex digits read back their value. -/
theorem hexVal_hexDigitChar : ∀ k, k < 16 → hexVal (hexDigitChar k) = some k := by
  decide

/-- Unfolding: a quote closes the body. -/
theorem psb_quote (x : List Char) : parseStringBody ('"' :: x) = some ([], x) := by
  rw [parseStringBody, if_pos rfl]

/-- Unfolding: a backslash defers to the escape reader. -/
theorem psb_backslash (x : List Char) :
    parseStringBody ('\\' :: x) = parseEscape x := by
  rw [parseStringBody, if_neg (by decide), if_pos rfl]

/-- Unfolding: an unescaped non-control character is taken verbatim. -/
theorem psb_verbatim (c : Char) (h1 : ¬c = '"') (h2 : ¬c = '\\')
    (h3 : ¬c.toNat < 32) (x : List Char) :
    parseStringBody (c :: x) =
      (parseStringBody x).map (fun r => (c :: r.1, r.2)) := by
  rw [parseStringBody, if_neg h1, if_neg h2, if_neg h3]

/-- Unfolding: a `u` escape defers to the hex reader. -/
theorem pe_u (x : List Char) : parseEscape ('u' :: x) = parseHex4 x := by
  rw [parseEscape, if_pos rfl]

/-- Unfolding: a two-character escape decodes through the table. -/
theorem pe_esc (e : Char) (h : ¬e = 'u') (d : Char) (hd : escDecode e = some d)
    (x : List Char) :
    parseEscape (e :: x) =
      (parseStringBody x).map (fun r => (d :: r.1, r.2)) := by
  rw [parseEscape, if_neg h, hd]

/-- Unfolding: four valid hex digits decode to a character. -/
theorem ph4_spec (d1 d2 d3 d4 : Char) (a b c1 d : Nat)
    (h1 : hexVal d1 = some a) (h2 : hexVal d2 = some b)
    (h3 : hexVal d3 = some c1) (h4 : hexVal d4 = some d) (x : List Char) :
    parseHex4 (d1 :: d2 :: d3 :: d4 :: x) =
      (parseStringBody x).map
        (fun r => (Char.ofNat (4096 * a + 256 * b + 16 * c1 + d) :: r.1, r.2)) := by
  simp only [parseHex4, h1, h2, h3, h4]

/-- Reading back an escaped string body, up to the closing quote. -/
theorem parseStringBody_ser (cs : List Char) :
    ∀ rest, parseStringBody (escapeChars cs ++ ('"' :: rest)) = some (cs, rest) := by
  induction cs with
  | nil => intro rest; exact psb_quote rest
  | cons c cs ih =>
    intro rest
    show parseStringBody ((escapeChar c ++ escapeChars cs) ++ '"' :: rest) = _
    rw [List.append_assoc]
    by_cases h1 : c = '"'
    · subst h1
      rw [show escapeChar '"' = ['\\', '"'] from rfl]
      simp only [List.cons_append, List.nil_append]
      rw [psb_backslash, pe_esc '"' (by decide) '"' rfl, ih rest]
      rfl
    by_cases h2 : c = '\\'
    · subst h2
      rw [show escapeChar '\\' = ['\\', '\\'] from rfl]
      simp only [List.cons_append, List.nil_append]
      rw [psb_backslash, pe_esc '\\' (by decide) '\\' rfl, ih rest]
      rfl
    by_cases h3 : c = '\n'
    · subst h3
      rw [show escapeChar '\n' = ['\\', 'n'] from rfl]
      simp only [List.cons_append, List.nil_append]
      rw [psb_backslash, pe_esc 'n' (by decide) '\n' rfl, ih rest]
      rfl
    by_cases h4 : c = '\t'
    · subst h4
      rw [show escapeChar '\t' = ['\\', 't'] from rfl]
      simp only [List.cons_append, List.nil_append]
      rw [psb_backslash, pe_esc 't' (by decide) '\t' rfl, ih rest]
      rfl
    by_cases h5 : c = '\r'
    · subst h5
      rw [show escapeChar '\r' = ['\\', 'r'] from rfl]
      simp only [List.cons_append, List.nil_append]
      rw [psb_backslash, pe_esc 'r' (by decide) '\r' rfl, ih rest]
      rfl
    by_cases h6 : c = Char.ofNat 8
    · subst h6
      rw [show escapeChar (Char.ofNat 8) = ['\\', 'b'] from rfl]
      simp only [List.cons_append, List.nil_append]
      rw [psb_backslash, pe_esc 'b' (by decide) (Char.ofNat 8) rfl, ih rest]
      rfl
    by_cases h7 : c = Char.ofNat 12
    · subst h7
      rw [show escapeChar (Char.ofNat 12) = ['\\', 'f'] from rfl]
      simp only [List.cons_append, List.nil_append]
      rw [psb_backslash, pe_esc 'f' (by decide) (Char.ofNat 12) rfl, ih rest]
      rfl
    by_cases h8 : c.toNat < 32
    · have hesc : escapeChar c =
          ['\\', 'u', '0', '0', hexDigitChar (c.toNat / 16),
           hexDigitChar (c.toNat % 16)] := by
        simp only [escapeChar, if_neg h1, if_neg h2, if_neg h3, if_neg h4,
          if_neg h5, if_neg h6, if_neg h7, if_pos h8]
      rw [hesc]
      simp only [List.cons_append, List.nil_append]
      rw [psb_backslash, pe_u,
        ph4_spec '0' '0' (hexDigitChar (c.toNat / 16)) (hexDigitChar (c.toNat % 16))
          0 0 (c.toNat / 16) (c.toNat % 16) rfl rfl
          (hexVal_hexDigitChar _ (by omega)) (hexVal_hexDigitChar _ (by omega)),
        ih rest]
      have harith : 4096 * 0 + 256 * 0 + 16 * (c.toNat / 16) + c.toNat % 16 =
          c.toNat := by omega
      rw [harith, Char.ofNat_toNat]
      rfl
    · have hesc : escapeChar c = [c] := by
        simp only [escapeChar, if_neg h1, if_neg h2, if_neg h3, if_neg h4,
          if_neg h5, if_neg h6, if_neg h7, if_neg h8]
      rw [hesc]
      simp only [List.cons_append, List.nil_append]
      rw [psb_verbatim c h1 h2 h8, ih rest]
      rfl

/-- Structural induction over JSON values with member hypotheses for the
nested lists. -/
theorem JValue.indMem {P : JValue → Prop}
    (hnull : P .null) (hbool : ∀ b, P (.bool b)) (hint : ∀ n, P (.int n))
    (hstr : ∀ s, P (.str s))
    (harr : ∀ xs, (∀ x ∈ xs, P x) → P (.arr xs))
    (hobj : ∀ kvs, (∀ kv ∈ kvs, P kv.2) → P (.obj kvs)) : ∀ v, P v
  | .null => hnull
  | .bool b => hbool b
  | .int n => hint n
  | .str s => hstr s
  | .arr xs =>
    harr xs (fun x _ => JValue.indMem hnull hbool hint hstr harr hobj x)
  | .obj kvs =>
    hobj kvs (fun kv _ => JValue.indMem hnull hbool hint hstr harr hobj kv.2)
termination_by v => sizeOf v
decreasing_by
  · have h1 : sizeOf x < sizeOf xs := List.sizeOf_lt_of_mem (by assumption)
    simp only [JValue.arr.sizeOf_spec]
    omega
  · have h1 : sizeOf kv < sizeOf kvs := List.sizeOf_lt_of_mem (by assumption)
    have h2 : sizeOf kv.2 < sizeOf kv := by
      obtain ⟨k, v2⟩ := kv
      simp only [Prod.mk.sizeOf_spec]
      omega
    simp only [JValue.obj.sizeOf_spec]
    omega

/-- Every serialization begins with a character that is not whitespace and
not a closing bracket or brace. -/
theorem serChars_head (v : JValue) :
    ∃ c cs, serChars v = c :: cs ∧ isWsChar c = false ∧ c ≠ ']' ∧
      c ≠ Char.ofNat 125 := by
  cases v with
  | null => exact ⟨'n', _, serChars_null, by decide, by decide, by decide⟩
  | bool b =>
    cases b with
    | true => exact ⟨'t', _, serChars_true, by decide, by decide, by decide⟩
    | false => exact ⟨'f', _, serChars_false, by decide, by decide, by decide⟩
  | int n =>
    rw [show serChars (.int n) = intToChars n from by rw [serChars]]
    by_cases hneg : n < 0
    · exact ⟨'-', _, by rw [intToChars, if_pos hneg], by decide, by decide, by decide⟩
    · obtain ⟨hne, hdig, _⟩ := natToChars_spec n.natAbs
      cases hnc : natToChars n.natAbs with
      | nil => exact absurd hnc hne
      | cons d ds =>
        have hd : isDigitChar d = true := hdig d (by rw [hnc]; exact List.mem_cons_self d ds)
        obtain ⟨_, _, _, _, _, _, _, hne2, hne3, _⟩ := digit_facts d hd
        exact ⟨d, ds, by rw [intToChars, if_neg hneg, hnc], digit_not_ws d hd,
          hne2, hne3⟩
  | str s =>
    exact ⟨'"', _, by rw [serChars, strChars], by decide, by decide, by decide⟩
  | arr xs =>
    cases xs with
    | nil => exact ⟨'[', _, by rw [serChars], by decide, by decide, by decide⟩
    | cons x xs => exact ⟨'[', _, by rw [serChars], by decide, by decide, by decide⟩
  | obj kvs =>
    cases kvs with
    | nil =>
      exact ⟨Char.ofNat 123, _, by rw [serChars], by decide, by decide, by decide⟩
    | cons kv kvs =>
      exact ⟨Char.ofNat 123, _, by rw [serChars], by decide, by decide, by decide⟩

/-- Skipping whitespace in front of a serialization is the identity. -/
theorem skipWs_serChars (v : JValue) (rest : List Char) :
    skipWs (serChars v ++ rest) = serChars v ++ rest := by
  obtain ⟨c, cs, he, hws, _, _⟩ := serChars_head v
  rw [he, List.cons_append, skipWs_not_ws c _ hws]

/-- Parser step: dispatch on the first significant character. -/
theorem pv_step_cons (f : Nat) (cs : List Char) (c : Char) (cs1 : List Char)
    (h : skipWs cs = c :: cs1) :
    parseValue (f+1) cs =
      (if c = 'n' then (stripLit ['u', 'l', 'l'] cs1).map (fun r => (JValue.null, r))
       else if c = 't' then (stripLit ['r', 'u', 'e'] cs1).map (fun r => (JValue.bool true, r))
       else if c = 'f' then (stripLit ['a', 'l', 's', 'e'] cs1).map (fun r => (JValue.bool false, r))
       else if c = '"' then (parseStringBody cs1).map (fun r => (JValue.str (String.mk r.1), r.2))
       else if c = '[' then
         match skipWs cs1 with
         | ']' :: cs2 => some (JValue.arr [], cs2)
         | cs2 => (parseElems f cs2).map (fun r => (JValue.arr r.1, r.2))
       else if c = Char.ofNat 123 then
         match skipWs cs1 with
         | [] => none
         | c2 :: cs2 =>
           if c2 = Char.ofNat 125 then some (JValue.obj [], cs2)
           else (parseMembers f (c2 :: cs2)).map (fun r => (JValue.obj r.1, r.2))
       else if c = '-' then (parseNumCore cs1).map (fun r => (JValue.int (-(r.1 : Int)), r.2))
       else if isDigitChar c then (parseNumCore (c :: cs1)).map (fun r => (JValue.int (r.1 : Int), r.2))
       else none) := by
  rw [parseValue, h]

/-- Parser step: `null` literal. -/
theorem pv_step_n (f : Nat) (cs cs1 : List Char) (h : skipWs cs = 'n' :: cs1) :
    parseValue (f+1) cs = (stripLit ['u', 'l', 'l'] cs1).map (fun r => (JValue.null, r)) := by
  rw [pv_step_cons f cs 'n' cs1 h]
  rfl

/-- Parser step: `true` literal. -/
theorem pv_step_t (f : Nat) (cs cs1 : List Char) (h : skipWs cs = 't' :: cs1) :
    parseValue (f+1) cs = (stripLit ['r', 'u', 'e'] cs1).map (fun r => (JValue.bool true, r)) := by
  rw [pv_step_cons f cs 't' cs1 h]
  rfl

/-- Parser step: `false` literal. -/
theorem pv_step_f (f : Nat) (cs cs1 : List Char) (h : skipWs cs = 'f' :: cs1) :
    parseValue (f+1) cs = (stripLit ['a', 'l', 's', 'e'] cs1).map (fun r => (JValue.bool false, r)) := by
  rw [pv_step_cons f cs 'f' cs1 h]
  rfl

/-- Parser step: string opening quote. -/
theorem pv_step_quote (f : Nat) (cs cs1 : List Char) (h : skipWs cs = '"' :: cs1) :
    parseValue (f+1) cs = (parseStringBody cs1).map (fun r => (JValue.str (String.mk r.1), r.2)) := by
  rw [pv_step_cons f cs '"' cs1 h]
  rfl

/-- Parser step: array opening bracket. -/
theorem pv_step_arr (f : Nat) (cs cs1 : List Char) (h : skipWs cs = '[' :: cs1) :
    parseValue (f+1) cs =
      (match skipWs cs1 with
       | ']' :: cs2 => some (JValue.arr [], cs2)
       | cs2 => (parseElems f cs2).map (fun r => (JValue.arr r.1, r.2))) := by
  rw [pv_step_cons f cs '[' cs1 h]
  rfl

/-- Parser step: object opening brace. -/
theorem pv_step_obj (f : Nat) (cs cs1 : List Char)
    (h : skipWs cs = Char.ofNat 123 :: cs1) :
    parseValue (f+1) cs =
      (match skipWs cs1 with
       | [] => none
       | c2 :: cs2 =>
         if c2 = Char.ofNat 125 then some (JValue.obj [], cs2)
         else (parseMembers f (c2 :: cs2)).map (fun r => (JValue.obj r.1, r.2))) := by
  rw [pv_step_cons f cs (Char.ofNat 123) cs1 h]
  rfl

/-- Parser step: negative number. -/
theorem pv_step_minus (f : Nat) (cs cs1 : List Char) (h : skipWs cs = '-' :: cs1) :
    parseValue (f+1) cs =
      (parseNumCore cs1).map (fun r => (JValue.int (-(r.1 : Int)), r.2)) := by
  rw [pv_step_cons f cs '-' cs1 h]
  rfl

/-- Parser step: unsigned number. -/
theorem pv_step_digit (f : Nat) (cs cs1 : List Char) (c : Char)
    (hd : isDigitChar c = true) (h : skipWs cs = c :: cs1) :
    parseValue (f+1) cs =
      (parseNumCore (c :: cs1)).map (fun r => (JValue.int (r.1 : Int), r.2)) := by
  obtain ⟨hn, ht, hf, hq, hlb, hlc, hm, _, _, _⟩ := digit_facts c hd
  rw [pv_step_cons f cs c cs1 h, if_neg hn, if_neg ht, if_neg hf, if_neg hq,
    if_neg hlb, if_neg hlc, if_neg hm, if_pos hd]

/-- A closing bracket context is a delimiter context. -/
theorem serDelim_rb (rest : List Char) : SerDelim (']' :: rest) :=
  Or.inr ⟨']', rest, rfl, Or.inr (Or.inl rfl)⟩

/-- A closing brace context is a delimiter context. -/
theorem serDelim_rc (rest : List Char) : SerDelim (Char.ofNat 125 :: rest) :=
  Or.inr ⟨Char.ofNat 125, rest, rfl, Or.inr (Or.inr rfl)⟩

/-- A comma context is a delimiter context. -/
theorem serDelim_comma (rest : List Char) : SerDelim (',' :: rest) :=
  Or.inr ⟨',', rest, rfl, Or.inl rfl⟩

/-- Reading back a serialized non-empty element list, up to the closing
bracket. -/
theorem parseElems_ser (xs : List JValue) :
    ∀ (x : JValue),
      (∀ y ∈ x :: xs, ∀ (fuel : Nat) (cs rest : List Char), jfuel y ≤ fuel →
        SerDelim rest → skipWs cs = serChars y ++ rest →
        parseValue fuel cs = some (y, rest)) →
      ∀ (fuel : Nat) (cs rest : List Char), jfuelElems (x :: xs) ≤ fuel →
        SerDelim rest →
        skipWs cs = serChars x ++ (serElemsTail xs ++ (']' :: rest)) →
        parseElems fuel cs = some (x :: xs, rest) := by
  induction xs with
  | nil =>
    intro x IH fuel cs rest hfuel hdelim hcs
    simp only [jfuelElems] at hfuel
    cases fuel with
    | zero => omega
    | succ f =>
      have hcs1 : skipWs cs = serChars x ++ (']' :: rest) := by
        simpa [serElemsTail] using hcs
      have hpv : parseValue f cs = some (x, ']' :: rest) :=
        IH x (List.mem_cons_self x []) f cs (']' :: rest) (by omega)
          (serDelim_rb rest) hcs1
      simp only [parseElems, hpv, skipWs_not_ws ']' rest (by decide)]
  | cons y ys ihl =>
    intro x IH fuel cs rest hfuel hdelim hcs
    simp only [jfuelElems] at hfuel
    cases fuel with
    | zero => omega
    | succ f =>
      have hr : serElemsTail (y :: ys) ++ (']' :: rest) =
          ',' :: ' ' :: ((serChars y ++ (serElemsTail ys ++ (']' :: rest)))) := by
        simp [serElemsTail, List.cons_append, List.append_assoc]
      have hpv : parseValue f cs =
          some (x, serElemsTail (y :: ys) ++ (']' :: rest)) :=
        IH x (List.mem_cons_self x (y :: ys)) f cs _ (by omega)
          (by rw [hr]; exact serDelim_comma _) hcs
      have hys : parseElems f (' ' :: (serChars y ++ (serElemsTail ys ++ (']' :: rest)))) =
          some (y :: ys, rest) := by
        refine ihl y (fun z hz => IH z (List.mem_cons_of_mem x hz)) f _ rest
          (by simp only [jfuelElems] at *; omega) hdelim ?_
        rw [skipWs_sp, skipWs_serChars y (serElemsTail ys ++ (']' :: rest))]
      simp only [parseElems, hpv, hr, skipWs_not_ws ',' _ (by decide), hys]
      rfl

/-- Parser step: the member reader after the opening quote of a key. -/
theorem pm_step_quote (f : Nat) (cs cs1 : List Char) (h : skipWs cs = '"' :: cs1) :
    parseMembers (f+1) cs =
      (match parseStringBody cs1 with
       | none => none
       | some (k, r1) =>
         match skipWs r1 with
         | ':' :: r2 =>
           (match parseValue f r2 with
            | none => none
            | some (v, r3) =>
              match skipWs r3 with
              | [] => none
              | c :: r4 =>
                if c = ',' then
                  (parseMembers f r4).map (fun t => ((String.mk k, v) :: t.1, t.2))
                else if c = Char.ofNat 125 then some ([(String.mk k, v)], r4)
                else none)
         | _ => none) := by
  rw [parseMembers, h]
  rfl

/-- Reading back a serialized non-empty member list, up to the closing
brace. -/
theorem parseMembers_ser (kvs : List (String × JValue)) :
    ∀ (k : String) (v : JValue),
      (∀ kv2 ∈ (k, v) :: kvs, ∀ (fuel : Nat) (cs rest : List Char),
        jfuel kv2.2 ≤ fuel → SerDelim rest →
        skipWs cs = serChars kv2.2 ++ rest →
        parseValue fuel cs = some (kv2.2, rest)) →
      ∀ (fuel : Nat) (cs rest : List Char), jfuelMembers ((k, v) :: kvs) ≤ fuel →
        SerDelim rest →
        skipWs cs = serMember (k, v) ++ (serMembersTail kvs ++ (Char.ofNat 125 :: rest)) →
        parseMembers fuel cs = some ((k, v) :: kvs, rest) := by
  induction kvs with
  | nil =>
    intro k v IH fuel cs rest hfuel hdelim hcs
    simp only [jfuelMembers] at hfuel
    cases fuel with
    | zero => omega
    | succ f =>
      have hcs1 : skipWs cs =
          '"' :: (escapeChars k.data ++
            ('"' :: (':' :: ' ' :: (serChars v ++ (Char.ofNat 125 :: rest))))) := by
        rw [hcs]
        simp only [serMember, strChars, serMembersTail, List.cons_append,
          List.append_assoc, List.nil_append]
      have hsb : parseStringBody (escapeChars k.data ++
          ('"' :: (':' :: ' ' :: (serChars v ++ (Char.ofNat 125 :: rest))))) =
          some (k.data, ':' :: ' ' :: (serChars v ++ (Char.ofNat 125 :: rest))) :=
        parseStringBody_ser k.data _
      have hpv : parseValue f (' ' :: (serChars v ++ (Char.ofNat 125 :: rest))) =
          some (v, Char.ofNat 125 :: rest) := by
        refine IH (k, v) (List.mem_cons_self _ _) f _ _
          (by show jfuel v ≤ f; omega) (serDelim_rc rest) ?_
        rw [skipWs_sp, skipWs_serChars v (Char.ofNat 125 :: rest)]
      rw [pm_step_quote f cs _ hcs1]
      simp only [hsb]
      simp only [skipWs_not_ws ':' _ (by decide)]
      simp only [hpv]
      simp only [skipWs_not_ws (Char.ofNat 125) _ (by decide)]
      simp
  | cons kv2 kvs2 ihl =>
    obtain ⟨k2, v2⟩ := kv2
    intro k v IH fuel cs rest hfuel hdelim hcs
    simp only [jfuelMembers] at hfuel
    cases fuel with
    | zero => omega
    | succ f =>
      have htail : serMembersTail ((k2, v2) :: kvs2) ++ (Char.ofNat 125 :: rest) =
          ',' :: ' ' :: (serMember (k2, v2) ++ (serMembersTail kvs2 ++ (Char.ofNat 125 :: rest))) := by
        simp [serMembersTail, List.cons_append, List.append_assoc]
      have hcs1 : skipWs cs =
          '"' :: (escapeChars k.data ++
            ('"' :: (':' :: ' ' :: (serChars v ++
              (serMembersTail ((k2, v2) :: kvs2) ++ (Char.ofNat 125 :: rest)))))) := by
        rw [hcs]
        simp only [serMember, strChars, List.cons_append, List.append_assoc,
          List.nil_append]
      have hsb : parseStringBody (escapeChars k.data ++
          ('"' :: (':' :: ' ' :: (serChars v ++
            (serMembersTail ((k2, v2) :: kvs2) ++ (Char.ofNat 125 :: rest)))))) =
          some (k.data, ':' :: ' ' :: (serChars v ++
            (serMembersTail ((k2, v2) :: kvs2) ++ (Char.ofNat 125 :: rest)))) :=
        parseStringBody_ser k.data _
      have hpv : parseValue f (' ' :: (serChars v ++
          (serMembersTail ((k2, v2) :: kvs2) ++ (Char.ofNat 125 :: rest)))) =
          some (v, serMembersTail ((k2, v2) :: kvs2) ++ (Char.ofNat 125 :: rest)) := by
        refine IH (k, v) (List.mem_cons_self _ _) f _ _
          (by show jfuel v ≤ f; omega)
          (by rw [htail]; exact serDelim_comma _) ?_
        rw [skipWs_sp, skipWs_serChars v _]
      have hrec : parseMembers f (' ' :: (serMember (k2, v2) ++
          (serMembersTail kvs2 ++ (Char.ofNat 125 :: rest)))) =
          some ((k2, v2) :: kvs2, rest) := by
        refine ihl k2 v2 (fun z hz => IH z (List.mem_cons_of_mem (k, v) hz)) f _ rest
          (by simp only [jfuelMembers]
              show 1 + jfuel v2 + jfuelMembers kvs2 ≤ f
              omega) hdelim ?_
        rw [skipWs_sp]
        simp only [serMember, strChars, List.cons_append, List.append_assoc]
        rw [skipWs_not_ws '"' _ (by decide)]
      rw [pm_step_quote f cs _ hcs1]
      simp only [hsb]
      simp only [skipWs_not_ws ':' _ (by decide)]
      simp only [hpv]
      rw [htail]
      simp only [skipWs_not_ws ',' _ (by decide)]
      simp [hrec]

/-- Discriminating the array match against a non-bracket head. -/
theorem match_arr_ne (f : Nat) (c0 : Char) (l : List Char) (h : ¬c0 = ']') :
    (match c0 :: l with
     | ']' :: cs2 => some (JValue.arr [], cs2)
     | cs2 => (parseElems f cs2).map (fun r => (JValue.arr r.1, r.2))) =
    (parseElems f (c0 :: l)).map (fun r => (JValue.arr r.1, r.2)) := by
  have hstep : (match c0 :: l with
      | ']' :: cs2 => some (JValue.arr [], cs2)
      | cs2 => (parseElems f cs2).map (fun r => (JValue.arr r.1, r.2))) =
      (if c0 = ']' then some (JValue.arr [], l)
       else (parseElems f (c0 :: l)).map (fun r => (JValue.arr r.1, r.2))) := by
    by_cases hc : c0 = ']'
    · subst hc; rfl
    · rw [if_neg hc]
      split
      · rename_i heq
        cases heq
        exact absurd rfl hc
      · rfl
  rw [hstep, if_neg h]

/-- Discriminating the object match against a non-brace head. -/
theorem match_obj_cons (f : Nat) (c2 : Char) (l : List Char)
    (h : ¬c2 = Char.ofNat 125) :
    (match c2 :: l with
     | [] => none
     | c3 :: cs2 =>
       if c3 = Char.ofNat 125 then some (JValue.obj [], cs2)
       else (parseMembers f (c3 :: cs2)).map (fun r => (JValue.obj r.1, r.2))) =
    (parseMembers f (c2 :: l)).map (fun r => (JValue.obj r.1, r.2)) := by
  show (if c2 = Char.ofNat 125 then some (JValue.obj [], l)
       else (parseMembers f (c2 :: l)).map (fun r => (JValue.obj r.1, r.2))) = _
  rw [if_neg h]

/-- Reading back any serialized value, leaving the delimiter context. -/
theorem parseValue_ser : ∀ v : JValue, ∀ (fuel : Nat) (cs rest : List Char),
    jfuel v ≤ fuel → SerDelim rest → skipWs cs = serChars v ++ rest →
    parseValue fuel cs = some (v, rest) := by
  intro v
  induction v using JValue.indMem with
  | hnull =>
    intro fuel cs rest hfuel hdelim hcs
    simp only [jfuel] at hfuel
    cases fuel with
    | zero => omega
    | succ f =>
      have hcs1 : skipWs cs = 'n' :: ('u' :: 'l' :: 'l' :: rest) := by
        rw [hcs, serChars_null]
        rfl
      rw [pv_step_n f cs _ hcs1,
        show ('u' :: 'l' :: 'l' :: rest) = ['u', 'l', 'l'] ++ rest from rfl,
        stripLit_self]
      rfl
  | hbool b =>
    intro fuel cs rest hfuel hdelim hcs
    simp only [jfuel] at hfuel
    cases fuel with
    | zero => omega
    | succ f =>
      cases b with
      | true =>
        have hcs1 : skipWs cs = 't' :: ('r' :: 'u' :: 'e' :: rest) := by
          rw [hcs, serChars_true]
          rfl
        rw [pv_step_t f cs _ hcs1,
          show ('r' :: 'u' :: 'e' :: rest) = ['r', 'u', 'e'] ++ rest from rfl,
          stripLit_self]
        rfl
      | false =>
        have hcs1 : skipWs cs = 'f' :: ('a' :: 'l' :: 's' :: 'e' :: rest) := by
          rw [hcs, serChars_false]
          rfl
        rw [pv_step_f f cs _ hcs1,
          show ('a' :: 'l' :: 's' :: 'e' :: rest) = ['a', 'l', 's', 'e'] ++ rest from rfl,
          stripLit_self]
        rfl
  | hint n =>
    intro fuel cs rest hfuel hdelim hcs
    simp only [jfuel] at hfuel
    cases fuel with
    | zero => omega
    | succ f =>
      rw [show serChars (JValue.int n) = intToChars n from by rw [serChars]] at hcs
      by_cases hneg : n < 0
      · have hcs1 : skipWs cs = '-' :: (natToChars n.natAbs ++ rest) := by
          rw [hcs, intToChars, if_pos hneg, List.cons_append]
        rw [pv_step_minus f cs _ hcs1, parseNumCore_ser n.natAbs rest hdelim]
        have he : -((n.natAbs : Int)) = n := by omega
        show some (JValue.int (-((n.natAbs : Int))), rest) = _
        rw [he]
      · obtain ⟨hne, hdig, _⟩ := natToChars_spec n.natAbs
        cases hnc : natToChars n.natAbs with
        | nil => exact absurd hnc hne
        | cons d ds =>
          have hd := hdig d (by rw [hnc]; exact List.mem_cons_self d ds)
          have hcs1 : skipWs cs = d :: (ds ++ rest) := by
            rw [hcs, intToChars, if_neg hneg, hnc, List.cons_append]
          rw [pv_step_digit f cs (ds ++ rest) d hd hcs1,
            show d :: (ds ++ rest) = natToChars n.natAbs ++ rest from by
              rw [hnc, List.cons_append],
            parseNumCore_ser n.natAbs rest hdelim]
          have he : ((n.natAbs : Int)) = n := by omega
          show some (JValue.int ((n.natAbs : Int)), rest) = _
          rw [he]
  | hstr s =>
    intro fuel cs rest hfuel hdelim hcs
    simp only [jfuel] at hfuel
    cases fuel with
    | zero => omega
    | succ f =>
      have hcs1 : skipWs cs = '"' :: (escapeChars s.data ++ ('"' :: rest)) := by
        rw [hcs, show serChars (JValue.str s) = strChars s from by rw [serChars],
          strChars]
        simp [List.cons_append, List.append_assoc]
      rw [pv_step_quote f cs _ hcs1, parseStringBody_ser s.data rest]
      rfl
  | harr xs hmem =>
    intro fuel cs rest hfuel hdelim hcs
    cases xs with
    | nil =>
      simp only [jfuel] at hfuel
      cases fuel with
      | zero => omega
      | succ f =>
        have hcs1 : skipWs cs = '[' :: (']' :: rest) := by
          rw [hcs, show serChars (JValue.arr []) = ['[', ']'] from by rw [serChars]]
          rfl
        rw [pv_step_arr f cs _ hcs1, skipWs_not_ws ']' rest (by decide)]
        rfl
    | cons x xs2 =>
      simp only [jfuel] at hfuel
      cases fuel with
      | zero => omega
      | succ f =>
        have hcs1 : skipWs cs =
            '[' :: (serChars x ++ (serElemsTail xs2 ++ (']' :: rest))) := by
          rw [hcs, show serChars (JValue.arr (x :: xs2)) =
            '[' :: (serChars x ++ serElemsTail xs2 ++ [']']) from by rw [serChars]]
          simp [List.cons_append, List.append_assoc]
        rw [pv_step_arr f cs _ hcs1,
          skipWs_serChars x (serElemsTail xs2 ++ (']' :: rest))]
        obtain ⟨c0, cs0, he0, hws0, hnb0, _⟩ := serChars_head x
        rw [he0, List.cons_append, match_arr_ne f c0 _ hnb0, ← List.cons_append,
          ← he0]
        rw [parseElems_ser xs2 x hmem f _ rest (by omega) hdelim
          (skipWs_serChars x _)]
        rfl
  | hobj kvs hmem =>
    intro fuel cs rest hfuel hdelim hcs
    cases kvs with
    | nil =>
      simp only [jfuel] at hfuel
      cases fuel with
      | zero => omega
      | succ f =>
        have hcs1 : skipWs cs = Char.ofNat 123 :: (Char.ofNat 125 :: rest) := by
          rw [hcs, show serChars (JValue.obj []) = [Char.ofNat 123, Char.ofNat 125]
            from by rw [serChars]]
          rfl
        rw [pv_step_obj f cs _ hcs1,
          skipWs_not_ws (Char.ofNat 125) rest (by decide)]
        rfl
    | cons kv kvs2 =>
      obtain ⟨k2, v2⟩ := kv
      simp only [jfuel] at hfuel
      cases fuel with
      | zero => omega
      | succ f =>
        have hser : serMember (k2, v2) ++ (serMembersTail kvs2 ++ (Char.ofNat 125 :: rest)) =
            '"' :: (escapeChars k2.data ++ ('"' :: (':' :: ' ' :: (serChars v2 ++
              (serMembersTail kvs2 ++ (Char.ofNat 125 :: rest)))))) := by
          simp [serMember, strChars, List.cons_append, List.append_assoc]
        have hcs1 : skipWs cs = Char.ofNat 123 ::
            (serMember (k2, v2) ++ (serMembersTail kvs2 ++ (Char.ofNat 125 :: rest))) := by
          rw [hcs, show serChars (JValue.obj ((k2, v2) :: kvs2)) =
            Char.ofNat 123 :: (serMember (k2, v2) ++ serMembersTail kvs2 ++
              [Char.ofNat 125]) from by rw [serChars]]
          simp [List.cons_append, List.append_assoc]
        rw [pv_step_obj f cs _ hcs1, hser, skipWs_not_ws '"' _ (by decide),
          match_obj_cons f '"' _ (by decide)]
        rw [parseMembers_ser kvs2 k2 v2 hmem f _ rest (by omega) hdelim ?_]
        · rfl
        · rw [skipWs_not_ws '"' _ (by decide), hser]

/-- Element-list fuel is bounded by the serialized tail length. -/
theorem jfuelElems_le (xs : List JValue)
    (h : ∀ x ∈ xs, jfuel x ≤ (serChars x).length) :
    jfuelElems xs ≤ (serElemsTail xs).length := by
  induction xs with
  | nil => simp [jfuelElems, serElemsTail]
  | cons x xs ih =>
    have hx := h x (List.mem_cons_self x xs)
    have ht := ih (fun y hy => h y (List.mem_cons_of_mem x hy))
    simp only [jfuelElems, serElemsTail, List.length_cons, List.length_append]
    omega

/-- Member-list fuel is bounded by the serialized tail length. -/
theorem jfuelMembers_le (kvs : List (String × JValue))
    (h : ∀ kv ∈ kvs, jfuel kv.2 ≤ (serChars kv.2).length) :
    jfuelMembers kvs ≤ (serMembersTail kvs).length := by
  induction kvs with
  | nil => simp [jfuelMembers, serMembersTail]
  | cons kv kvs ih =>
    obtain ⟨k, v⟩ := kv
    have hx : jfuel v ≤ (serChars v).length := h (k, v) (List.mem_cons_self _ kvs)
    have ht := ih (fun y hy => h y (List.mem_cons_of_mem (k, v) hy))
    have hm : (serMember (k, v)).length =
        (strChars k).length + 2 + (serChars v).length := by
      simp [serMember, List.length_append]
      omega
    simp only [jfuelMembers, serMembersTail, List.length_cons, List.length_append]
    simp only [hm]
    show 1 + jfuel v + jfuelMembers kvs ≤ _
    omega

/-- The parser fuel a value needs is at most its serialized length. -/
theorem jfuel_le (v : JValue) : jfuel v ≤ (serChars v).length := by
  induction v using JValue.indMem with
  | hnull => rw [serChars_null]; simp [jfuel]
  | hbool b => cases b <;> simp [serChars_true, serChars_false, jfuel]
  | hint n =>
    rw [show serChars (JValue.int n) = intToChars n from by rw [serChars]]
    have hpos : 1 ≤ (natToChars n.natAbs).length :=
      List.length_pos.mpr (natToChars_spec n.natAbs).1
    by_cases hneg : n < 0
    · rw [intToChars, if_pos hneg]
      simp only [jfuel, List.length_cons]
      omega
    · rw [intToChars, if_neg hneg]
      simp only [jfuel]
      omega
  | hstr s =>
    rw [show serChars (JValue.str s) = strChars s from by rw [serChars], strChars]
    simp [jfuel]
  | harr xs hmem =>
    cases xs with
    | nil => rw [serChars]; simp [jfuel]
    | cons x xs2 =>
      rw [show serChars (JValue.arr (x :: xs2)) =
        '[' :: (serChars x ++ serElemsTail xs2 ++ [']']) from by rw [serChars]]
      have hx := hmem x (List.mem_cons_self x xs2)
      have ht := jfuelElems_le xs2 (fun y hy => hmem y (List.mem_cons_of_mem x hy))
      simp only [jfuel, jfuelElems, List.length_cons, List.length_append,
        List.length_singleton]
      omega
  | hobj kvs hmem =>
    cases kvs with
    | nil => rw [serChars]; simp [jfuel]
    | cons kv kvs2 =>
      obtain ⟨k, v⟩ := kv
      rw [show serChars (JValue.obj ((k, v) :: kvs2)) =
        Char.ofNat 123 :: (serMember (k, v) ++ serMembersTail kvs2 ++
          [Char.ofNat 125]) from by rw [serChars]]
      have hx : jfuel v ≤ (serChars v).length :=
        hmem (k, v) (List.mem_cons_self _ kvs2)
      have ht := jfuelMembers_le kvs2
        (fun y hy => hmem y (List.mem_cons_of_mem (k, v) hy))
      have hm : (serMember (k, v)).length =
          (strChars k).length + 2 + (serChars v).length := by
        simp [serMember, List.length_append]
        omega
      simp only [jfuel, jfuelMembers, List.length_cons, List.length_append,
        List.length_singleton, hm]
      show 1 + (1 + jfuel v + jfuelMembers kvs2) ≤ _
      omega

/-- Round trip: parsing a dumped value gives the value back. -/
theorem json_loads_dumps (v : JValue) : json_loads (json_dumps v) = some v := by
  have hsk : skipWs (serChars v) = serChars v ++ ([] : List Char) := by
    have := skipWs_serChars v []
    rw [List.append_nil] at this ⊢
    exact this
  have hpv := parseValue_ser v ((serChars v).length + 1) (serChars v) []
    (le_trans (jfuel_le v) (by omega)) (Or.inl rfl) hsk
  show (match parseValue ((serChars v).length + 1) (serChars v) with
        | some (v2, rest) => if (skipWs rest).isEmpty then some v2 else none
        | none => none) = some v
  rw [hpv]
  rfl

/-- C8: encoding a mapping of string keys to JSON-representable values to
serialized text and decoding it back yields the original mapping exactly —
both directly through `json.loads` and through the section-4.1 coercion
path, which replaces the serialized `metadata` field by the decoded
mapping.  (JSON numbers are integers in this embedding; floating-point
values are outside it.) -/
theorem c8_metadata_round_trip (entries : List (String × JValue)) :
    json_loads (json_dumps (JValue.obj entries)) = some (JValue.obj entries) ∧
    ∃ values2,
      LiteLLM_TeamTable.set_model_info
          [("metadata", RawValue.rstr (json_dumps (JValue.obj entries)))] =
        .ok values2 ∧
      rawGet values2 "metadata" = some (.rjson (JValue.obj entries)) := by
  refine ⟨json_loads_dumps _, ?_⟩
  refine ⟨[("metadata", RawValue.rjson (JValue.obj entries)),
           ("metadata", RawValue.rstr (json_dumps (JValue.obj entries)))],
    ?_, rfl⟩
  have h1 : rawGet [("metadata", RawValue.rstr (json_dumps (JValue.obj entries)))]
      "metadata" = some (.rstr (json_dumps (JValue.obj entries))) := rfl
  have hset : rawSet [("metadata", RawValue.rstr (json_dumps (JValue.obj entries)))]
      "metadata" (RawValue.rjson (JValue.obj entries)) =
      [("metadata", RawValue.rjson (JValue.obj entries)),
       ("metadata", RawValue.rstr (json_dumps (JValue.obj entries)))] := rfl
  have h2 : rawGet [("metadata", RawValue.rjson (JValue.obj entries)),
      ("metadata", RawValue.rstr (json_dumps (JValue.obj entries)))] "aliases" =
      none := rfl
  have h3 : rawGet [("metadata", RawValue.rjson (JValue.obj entries)),
      ("metadata", RawValue.rstr (json_dumps (JValue.obj entries)))] "config" =
      none := rfl
  have h4 : rawGet [("metadata", RawValue.rjson (JValue.obj entries)),
      ("metadata", RawValue.rstr (json_dumps (JValue.obj entries)))] "permissions" =
      none := rfl
  have h5 : rawGet [("metadata", RawValue.rjson (JValue.obj entries)),
      ("metadata", RawValue.rstr (json_dumps (JValue.obj entries)))]
      "model_max_budget" = none := rfl
  have h6 : rawGet [("metadata", RawValue.rjson (JValue.obj entries)),
      ("metadata", RawValue.rstr (json_dumps (JValue.obj entries)))]
      "model_aliases" = none := rfl
  simp only [LiteLLM_TeamTable.set_model_info, teamDictFields, normalizeFields,
    h1, json_loads_dumps, hset, h2, h3, h4, h5, h6]
